import Mathlib

/-
Verification development for the semantic-analysis core of the Jule compiler
front-end (lexer, expression evaluator, type system, statement checker).

The Go sources are shallowly embedded: Go strings are modelled as `List Char`
(Go indexes the relevant strings byte-wise but all decisive characters are
ASCII, so character lists are faithful), pointers/mutation are modelled by
explicit state passing, and unbounded recursion through the type-alias table
is modelled with an explicit fuel parameter (`none` = the Go code would not
return).  Functions keep their source names inside namespaces:
  namespace XLex     — lexer (lex package)
  namespace XParser  — the parser-package checker/evaluator (parser package)
  namespace Sema     — the sema-package evaluator (sema package)
Definitions whose Go source is not part of the repository snapshot are marked
`Modelled from the spec:` in their doc comment.
-/

namespace XParser

/-- Token id codes of lex.Token used by the expression evaluator
(only the distinctions the embedded functions inspect). -/
inductive TokId where
  | operatorId
  | braceId
  | commaId
  | valueId
  | nameId
  | naId
deriving DecidableEq, Repr

/-- lex.Token restricted to the fields read by the embedded functions. -/
structure Tok where
  id : TokId
  kind : List Char
deriving DecidableEq, Repr

/-- A "process" (one operand or operator run) is an operator process exactly
when it is a single token with operator id; returns its kind then.
(Embeds the `len(part) != 1` / `part[0].Id != lex.Operator` skips of
parser.go nextOperator.) -/
def partOpKind : List Tok → Option (List Char)
  | [t] => if t.id = TokId.operatorId then some t.kind else none
  | _ => none

/-- The five last-seen operator indexes of parser.go nextOperator
(precedence5 … precedence1), each -1 when unset, exactly as in the Go loop. -/
structure PrecIdx where
  precedence5 : Int
  precedence4 : Int
  precedence3 : Int
  precedence2 : Int
  precedence1 : Int
deriving DecidableEq, Repr

/-- Operator kinds of the highest precedence level (`* / % << >> &`). -/
def group5 : List (List Char) := ["*".data, "/".data, "%".data, "<<".data, ">>".data, "&".data]

/-- Operator kinds of the second precedence level (`+ - | ^`). -/
def group4 : List (List Char) := ["+".data, "-".data, "|".data, "^".data]

/-- Operator kinds of the comparison precedence level. -/
def group3 : List (List Char) := ["==".data, "!=".data, "<".data, "<=".data, ">".data, ">=".data]

/-- One iteration of the nextOperator loop body: records index `i` into the
precedence register of the operator's level (overwriting any earlier index,
as the Go `switch` assignment does).  Unknown operator kinds push the
invalid_operator diagnostic in Go and record nothing. -/
def updatePrec (st : PrecIdx) (i : Nat) (part : List Tok) : PrecIdx :=
  match partOpKind part with
  | none => st
  | some k =>
    if k ∈ group5 then { st with precedence5 := Int.ofNat i }
    else if k ∈ group4 then { st with precedence4 := Int.ofNat i }
    else if k ∈ group3 then { st with precedence3 := Int.ofNat i }
    else if k = "&&".data then { st with precedence2 := Int.ofNat i }
    else if k = "||".data then { st with precedence1 := Int.ofNat i }
    else st

/-- The `for i, part := range tokens` loop of parser.go nextOperator. -/
def scanPrec : Nat → List (List Tok) → PrecIdx → PrecIdx
  | _, [], st => st
  | i, part :: rest, st => scanPrec (i + 1) rest (updatePrec st i part)

/-- parser.go nextOperator: find index of priority operator; -1 if none. -/
def nextOperator (tokens : List (List Tok)) : Int :=
  let st := scanPrec 0 tokens ⟨-1, -1, -1, -1, -1⟩
  if st.precedence5 ≠ -1 then st.precedence5
  else if st.precedence4 ≠ -1 then st.precedence4
  else if st.precedence3 ≠ -1 then st.precedence3
  else if st.precedence2 ≠ -1 then st.precedence2
  else st.precedence1

/-- Specification-side precedence of an operator kind (5 highest … 1 lowest),
none for kinds the evaluator does not accept as binary operators. -/
def opPrecedence (k : List Char) : Option Nat :=
  if k ∈ group5 then some 5
  else if k ∈ group4 then some 4
  else if k ∈ group3 then some 3
  else if k = "&&".data then some 2
  else if k = "||".data then some 1
  else none

/-- Precedence of a process: defined exactly when it is an operator process
with a known operator kind. -/
def partPrec (part : List Tok) : Option Nat :=
  match partOpKind part with
  | some k => opPrecedence k
  | none => none

/-- Register getter: level 5 … 1 of a PrecIdx (levels outside 2..5 read the
lowest register). -/
def PrecIdx.f (st : PrecIdx) : Nat → Int
  | 5 => st.precedence5
  | 4 => st.precedence4
  | 3 => st.precedence3
  | 2 => st.precedence2
  | _ => st.precedence1

/-- Reference recursion of a single precedence register: the index of the
last process of level `k`, starting the scan at absolute index `i0` with
accumulator `acc`. -/
def lastIdxA (k : Nat) : Nat → List (List Tok) → Int → Int
  | _, [], acc => acc
  | i, part :: rest, acc =>
    lastIdxA k (i + 1) rest (if partPrec part = some k then Int.ofNat i else acc)

/-- An operator token with the given kind. -/
def opTok (s : List Char) : Tok := ⟨TokId.operatorId, s⟩

/-- A (stand-in) operand token. -/
def operandTok : Tok := ⟨TokId.valueId, "1".data⟩

/-- The processes of `1 + 1 + 1`: two `+` operators of equal precedence at
indexes 1 and 3. -/
def cexProcesses : List (List Tok) :=
  [[operandTok], [opTok ("+".data)], [operandTok], [opTok ("+".data)], [operandTok]]

end XParser

namespace XParser

/-- Primitive type codes of the pkg/x type registry (parser generation). -/
inductive TypeCode where
  | i8 | i16 | i32 | i64 | u8 | u16 | u32 | u64 | f32 | f64
  | boolT | runeT | strT | anyT | nilT | voidT | nameT | funcT | structT | enumT
deriving DecidableEq, Repr

/-- ast.DataType restricted to the fields the embedded functions read:
`code` (x type code), `value` (the type lexeme, e.g. "[]*i32"),
`tokenKind` (dt.Token.Kind, the bare name token), and the Func tag payload
(`params`, `ret`) carried by dt.Tag for Func types. -/
inductive DataT where
  | mk (code : TypeCode) (value : List Char) (tokenKind : List Char)
       (params : List DataT) (ret : Option DataT)

def DataT.code : DataT → TypeCode
  | .mk c _ _ _ _ => c

def DataT.value : DataT → List Char
  | .mk _ v _ _ _ => v

def DataT.tokenKind : DataT → List Char
  | .mk _ _ t _ _ => t

def DataT.params : DataT → List DataT
  | .mk _ _ _ p _ => p

def DataT.ret : DataT → Option DataT
  | .mk _ _ _ _ r => r

/-- types.go typeIsPointer: the lexeme is nonempty and starts with `*`. -/
def typeIsPointer (t : DataT) : Bool :=
  match t.value with
  | [] => false
  | c :: _ => c = '*'

/-- types.go typeIsArray: the lexeme is nonempty and starts with `[`. -/
def typeIsArray (t : DataT) : Bool :=
  match t.value with
  | [] => false
  | c :: _ => c = '['

/-- types.go typeIsSingle: not pointer, not array, not Func. -/
def typeIsSingle (t : DataT) : Bool :=
  !typeIsPointer t && !typeIsArray t && t.code ≠ TypeCode.funcT

/-- types.go typeIsNilCompatible: Func code or pointer (note: no array/slice
case in the source). -/
def typeIsNilCompatible (t : DataT) : Bool :=
  t.code = TypeCode.funcT || typeIsPointer t

/-- types.go checkArrayCompatiblity. -/
def checkArrayCompatiblity (arrT t : DataT) : Bool :=
  if t.code = TypeCode.nilT then true
  else arrT.value = t.value

/-- Modelled from the spec: pkg/x TypesAreCompatible is not under src/.
Spec §4.B item 3: `Any` matches everything unless ignoreAny; identical codes
match; numeric codes widen within their own signedness class (I8<I16<I32<I64
and analogously for U and F); signed and unsigned do not silently mix. -/
def xTypesAreCompatible (t1 t2 : TypeCode) (ignoreany : Bool) : Bool :=
  if !ignoreany && (t1 = TypeCode.anyT || t2 = TypeCode.anyT) then true
  else if t1 = t2 then true
  else if (t1 ∈ [TypeCode.i8, TypeCode.i16, TypeCode.i32, TypeCode.i64]) &&
          (t2 ∈ [TypeCode.i8, TypeCode.i16, TypeCode.i32, TypeCode.i64]) then true
  else if (t1 ∈ [TypeCode.u8, TypeCode.u16, TypeCode.u32, TypeCode.u64]) &&
          (t2 ∈ [TypeCode.u8, TypeCode.u16, TypeCode.u32, TypeCode.u64]) then true
  else if (t1 ∈ [TypeCode.f32, TypeCode.f64]) && (t2 ∈ [TypeCode.f32, TypeCode.f64]) then true
  else false

/-- types.go typesAreCompatible. -/
def typesAreCompatible (t1 t2 : DataT) (ignoreany : Bool) : Bool :=
  if typeIsArray t1 || typeIsArray t2 then
    if typeIsArray t2 then checkArrayCompatiblity t2 t1
    else checkArrayCompatiblity t1 t2
  else if typeIsNilCompatible t1 || typeIsNilCompatible t2 then
    t1.code = TypeCode.nilT || t2.code = TypeCode.nilT
  else xTypesAreCompatible t1.code t2.code ignoreany

/-- The type of the `nil` literal as the evaluator produces it
(valueEvaluator.nil: Code = Nil, lexeme left empty). -/
def nilLiteralType : DataT := .mk TypeCode.nilT [] [] [] none

/-- A slice type `[]i32` as the type builder renders it. -/
def sliceI32 : DataT := .mk TypeCode.i32 ("[]i32".data) [] [] none

/-- A pointer type `*i32`. -/
def ptrI32 : DataT := .mk TypeCode.i32 ("*i32".data) [] [] none

end XParser

namespace XParser

theorem updatePrec_f (st : PrecIdx) (i : Nat) (part : List Tok) (k : Nat)
    (h1 : 1 ≤ k) (h5 : k ≤ 5) :
    (updatePrec st i part).f k =
      if partPrec part = some k then Int.ofNat i else st.f k := by
  unfold updatePrec partPrec
  cases hp : partOpKind part with
  | none => simp
  | some kd =>
    unfold opPrecedence
    dsimp only
    by_cases g5 : kd ∈ group5
    · rw [if_pos g5, if_pos g5]
      interval_cases k <;> simp [PrecIdx.f]
    · rw [if_neg g5, if_neg g5]
      by_cases g4 : kd ∈ group4
      · rw [if_pos g4, if_pos g4]
        interval_cases k <;> simp [PrecIdx.f]
      · rw [if_neg g4, if_neg g4]
        by_cases g3 : kd ∈ group3
        · rw [if_pos g3, if_pos g3]
          interval_cases k <;> simp [PrecIdx.f]
        · rw [if_neg g3, if_neg g3]
          by_cases g2 : kd = "&&".data
          · rw [if_pos g2, if_pos g2]
            interval_cases k <;> simp [PrecIdx.f]
          · rw [if_neg g2, if_neg g2]
            by_cases g1 : kd = "||".data
            · rw [if_pos g1, if_pos g1]
              interval_cases k <;> simp [PrecIdx.f]
            · rw [if_neg g1, if_neg g1]
              simp

theorem scanPrec_f (k : Nat) (h1 : 1 ≤ k) (h5 : k ≤ 5) :
    ∀ (ps : List (List Tok)) (i0 : Nat) (st : PrecIdx),
      (scanPrec i0 ps st).f k = lastIdxA k i0 ps (st.f k) := by
  intro ps
  induction ps with
  | nil => intro i0 st; rfl
  | cons part rest ih =>
    intro i0 st
    simp only [scanPrec, lastIdxA, ih, updatePrec_f st i0 part k h1 h5]

theorem lastIdxA_cons (k : Nat) (i : Nat) (part : List Tok) (rest : List (List Tok)) (acc : Int) :
    lastIdxA k i (part :: rest) acc =
      lastIdxA k (i + 1) rest (if partPrec part = some k then Int.ofNat i else acc) := rfl

theorem partPrec_range (part : List Tok) (q : Nat) (h : partPrec part = some q) :
    1 ≤ q ∧ q ≤ 5 := by
  unfold partPrec opPrecedence at h
  cases hp : partOpKind part with
  | none => simp [hp] at h
  | some kd =>
    rw [hp] at h
    dsimp only at h
    split_ifs at h <;> simp_all <;> omega

/-- Characterization of one register: either it stays at the accumulator and
no process has level `k`, or it is the absolute index of the last process of
level `k`. -/
theorem lastIdxA_char (k : Nat) :
    ∀ (ps : List (List Tok)) (i0 : Nat) (acc : Int),
      (lastIdxA k i0 ps acc = acc ∧
        ∀ m, m < ps.length → partPrec (ps.getD m []) ≠ some k) ∨
      (∃ j, lastIdxA k i0 ps acc = Int.ofNat j ∧ i0 ≤ j ∧ j - i0 < ps.length ∧
        partPrec (ps.getD (j - i0) []) = some k ∧
        ∀ m, j - i0 < m → m < ps.length → partPrec (ps.getD m []) ≠ some k) := by
  intro ps
  induction ps with
  | nil => intro i0 acc; left; simp [lastIdxA]
  | cons part rest ih =>
    intro i0 acc
    by_cases hk : partPrec part = some k
    · rcases ih (i0 + 1) (Int.ofNat i0) with ⟨heq, hnone⟩ | ⟨j, hj, hle, hlt, hat, hafter⟩
      · right
        refine ⟨i0, ?_, le_refl _, ?_, ?_, ?_⟩
        · rw [lastIdxA_cons, if_pos hk]; exact heq
        · simp
        · simpa using hk
        · intro m hm hmlen
          cases m with
          | zero => omega
          | succ m =>
            simp only [List.getD_cons_succ]
            exact hnone m (by simpa using hmlen)
      · right
        refine ⟨j, ?_, by omega, by simp; omega, ?_, ?_⟩
        · rw [lastIdxA_cons, if_pos hk]; exact hj
        · have : j - i0 = (j - (i0 + 1)) + 1 := by omega
          rw [this, List.getD_cons_succ]
          exact hat
        · intro m hm hmlen
          cases m with
          | zero => omega
          | succ m =>
            simp only [List.getD_cons_succ]
            exact hafter m (by omega) (by simpa using hmlen)
    · rcases ih (i0 + 1) acc with ⟨heq, hnone⟩ | ⟨j, hj, hle, hlt, hat, hafter⟩
      · left
        constructor
        · rw [lastIdxA_cons, if_neg hk]; exact heq
        · intro m hmlen
          cases m with
          | zero => simpa using hk
          | succ m =>
            simp only [List.getD_cons_succ]
            exact hnone m (by simpa using hmlen)
      · right
        refine ⟨j, ?_, by omega, by simp; omega, ?_, ?_⟩
        · rw [lastIdxA_cons, if_neg hk]; exact hj
        · have : j - i0 = (j - (i0 + 1)) + 1 := by omega
          rw [this, List.getD_cons_succ]
          exact hat
        · intro m hm hmlen
          cases m with
          | zero => omega
          | succ m =>
            simp only [List.getD_cons_succ]
            exact hafter m (by omega) (by simpa using hmlen)

end XParser

namespace XParser

/-- A type-alias table entry (an element of p.Types): the alias identifier
and the aliased type (t.Id and t.Type of the ast.Type node). -/
structure TypeAliasT where
  idStr : List Char
  typ : DataT

/-- parser.go typeById: the first table entry with the given identifier.
The Go function returns a pointer to the range-loop's COPY of the entry, so
callers that mutate the result (readyType's value splice) never change the
table; the model therefore treats the table as immutable. -/
def typeById (tbl : List TypeAliasT) (id0 : List Char) : Option TypeAliasT :=
  tbl.find? (fun t => t.idStr == id0)

/-- Modelled from the spec: ast.Func.DataTypeString is not under src/.  The
spec fixes no concrete rendering; readyType only needs a deterministic
function of the Func tag, so the signature is rendered from the parameter
and return type lexemes.  The rendering always starts with a parenthesis,
hence is never empty. -/
def dataTypeString (params : List DataT) (ret : Option DataT) : List Char :=
  "(".data ++ (params.map DataT.value).flatten ++ ")".data ++
    (match ret with
     | some r => r.value
     | none => [])

/-- The value splice of readyType's Name case:
`dt.Value[:len(dt.Value)-len(dt.Token.Kind)] + t.Type.Value`
(the alias' `*`/`[]` prefix is put in front of the resolved lexeme). -/
def spliceValue (dtValue tokenKind tv : List Char) : List Char :=
  dtValue.take (dtValue.length - tokenKind.length) ++ tv

/-- The parameter loop of readyType's Func case, parameterized by the
resolver used for each element: resolves each parameter type in order,
storing the resolved type back and discarding the ok flag, as
`funAST.Params[index].Type, _ = p.readyType(param.Type, err)` does. -/
def readyParams (rt : DataT → Option (DataT × Bool)) : List DataT → Option (List DataT)
  | [] => some []
  | p :: rest =>
    match rt p with
    | none => none
    | some (p1, _) =>
      match readyParams rt rest with
      | some rest1 => some (p1 :: rest1)
      | none => none

/-- parser.go readyType (lines 2292-2316).  The `err` flag of the source only
gates a diagnostic and does not influence the returned pair, so it is
omitted; the result is (resolved type, ok).  `fuel` bounds the recursion
depth: `none` models a Go execution that does not return (cyclic aliases).
A Name type is resolved through the alias table with the prefix splice; a
Func type has its parameter types resolved in place (the tag's param slice
is shared, so the update is visible in the result), its return type resolved
into a local copy that is then dropped (the source discards
`funAST.RetType`), and its lexeme recomputed from the tag. -/
def readyType (tbl : List TypeAliasT) : Nat → DataT → Option (DataT × Bool)
  | 0, _ => none
  | fuel + 1, .mk code value tokenKind params ret =>
    if value = [] then some (.mk code value tokenKind params ret, true)
    else
      match code with
      | TypeCode.nameT =>
        match typeById tbl tokenKind with
        | none => some (.mk code value tokenKind params ret, false)
        | some t =>
          readyType tbl fuel (.mk t.typ.code (spliceValue value tokenKind t.typ.value)
            t.typ.tokenKind t.typ.params t.typ.ret)
      | TypeCode.funcT =>
        match readyParams (readyType tbl fuel) params with
        | none => none
        | some ps =>
          match ret with
          | none => some (.mk code (dataTypeString ps none) tokenKind ps none, true)
          | some rt =>
            match readyType tbl fuel rt with
            | none => none
            | some _ =>
              some (.mk code (dataTypeString ps (some rt)) tokenKind ps (some rt), true)
      | _ => some (.mk code value tokenKind params ret, true)

/-- Demo alias table: `type Int i32`. -/
def demoTable : List TypeAliasT :=
  [⟨"Int".data, .mk TypeCode.i32 ("i32".data) ("i32".data) [] none⟩]

/-- The named type `Int` before resolution. -/
def demoNamedType : DataT := .mk TypeCode.nameT ("Int".data) ("Int".data) [] none

/-- The resolved form of `Int`. -/
def demoResolvedType : DataT := .mk TypeCode.i32 ("i32".data) ("i32".data) [] none

end XParser


namespace XParser

/-- The parser's `value` struct (parser.go 514-520): evaluation result with
the ast.Value payload flattened to the fields the embedded functions read
(Data lexeme and Type). -/
structure value where
  dataStr : List Char
  typ : DataT
  constant : Bool
  volatileFlag : Bool
  lvalue : Bool
  variadic : Bool

/-- ast.Var restricted to the fields valueEvaluator.id reads. -/
structure VarAST where
  idStr : List Char
  typ : DataT
  constFlag : Bool
  volatileFlag : Bool

/-- valueEvaluator.id (parser.go 737-759), with the varById/FuncById lookup
results passed in.  A variable hit yields the declared type with
`lvalue = true` unconditionally — also for constant variables — and
`constant = variable.Const`; a function hit yields a Func-typed value with
the zero flags; a miss pushes id_noexist. -/
def idEval (tokenKind : List Char) (variable0 : Option VarAST) (fn : Option DataT) :
    Option value × List (List Char) :=
  match variable0 with
  | some v =>
    (some { dataStr := tokenKind, typ := v.typ, constant := v.constFlag,
            volatileFlag := v.volatileFlag, lvalue := true, variadic := false }, [])
  | none =>
    match fn with
    | some ft =>
      (some { dataStr := tokenKind, typ := ft, constant := false,
              volatileFlag := false, lvalue := false, variadic := false }, [])
    | none => (none, ["id_noexist".data])

/-- retChecker.checkExprTypes (parser.go 1852-1892): the error keys pushed
synchronously.  `multiTyped` is fun.RetType.MultiTyped, `tag` the declared
return types (RetType.Tag), `values` the evaluated return expressions.  The
per-value compatibility checks are spawned as async tasks and not part of
this function's own diagnostics. -/
def checkExprTypes (multiTyped : Bool) (tag : List DataT) (values : List value) :
    List (List Char) :=
  let valLength := values.length
  if !multiTyped then
    if valLength > 1 then ["overflow_return".data] else []
  else
    if valLength == 1 then ["missing_multi_return".data]
    else if valLength > tag.length then ["overflow_return".data]
    else []

/-- Modelled from the spec: pkg/x IsIntegerType is not under src/; the
integer type codes are the signed and unsigned integer codes. -/
def xIsIntegerType (c : TypeCode) : Bool :=
  c ∈ [TypeCode.i8, TypeCode.i16, TypeCode.i32, TypeCode.i64,
       TypeCode.u8, TypeCode.u16, TypeCode.u32, TypeCode.u64]

/-- DataT with its code replaced (a Go `Type.Code = …` assignment). -/
def DataT.withCode (t : DataT) (c : TypeCode) : DataT :=
  match t with
  | .mk _ v tk ps r => .mk c v tk ps r

/-- parser.go evalStrSelect (1569-1576): string indexing marks the value
lvalue, sets the result code to Rune (not U8), and requires a single
integer index type, else pushes notint_string_select. -/
def evalStrSelect (strv selectv : value) : value × List (List Char) :=
  let strv1 := { strv with lvalue := true, typ := strv.typ.withCode TypeCode.runeT }
  if !typeIsSingle selectv.typ || !xIsIntegerType selectv.typ.code then
    (strv1, ["notint_string_select".data])
  else (strv1, [])

/-- strings.Contains(kind, ".") || strings.ContainsAny(kind, "eE") of
valueEvaluator.num. -/
def containsDotOrExp (s : List Char) : Bool :=
  s.any (fun c => c = '.') || s.any (fun c => c = 'e' || c = 'E')

end XParser

/-- Digit value of a character in the given base, none if invalid. -/
def digitVal (base : Nat) (c : Char) : Option Nat :=
  let v :=
    if '0' ≤ c ∧ c ≤ '9' then some (c.toNat - '0'.toNat)
    else if 'a' ≤ c ∧ c ≤ 'f' then some (c.toNat - 'a'.toNat + 10)
    else if 'A' ≤ c ∧ c ≤ 'F' then some (c.toNat - 'A'.toNat + 10)
    else none
  match v with
  | some d => if d < base then some d else none
  | none => none

/-- Accumulating digit-string parse in the given base. -/
def parseDigits (base : Nat) : List Char → Nat → Option Nat
  | [], acc => some acc
  | c :: rest, acc =>
    match digitVal base c with
    | some d => parseDigits base rest (acc * base + d)
    | none => none

/-- Base detection and parse of a non-negative integer literal, with the
base prefixes of sema lit_int (0x hex, 0b binary, leading-zero octal, else
decimal); strconv parse semantics: empty digit strings and invalid digits
fail. -/
def parseIntLit (s : List Char) : Option Nat :=
  match s with
  | '0' :: 'x' :: rest => if rest = [] then none else parseDigits 16 rest 0
  | '0' :: 'b' :: rest => if rest = [] then none else parseDigits 2 rest 0
  | '0' :: c :: rest => parseDigits 8 (c :: rest) 0
  | _ => if s = [] then none else parseDigits 10 s 0

namespace XParser

/-- Modelled from the spec: pkg/xbits.CheckBitInt is not under src/.  §4.B:
a non-negative integer literal fits a signed n-bit type iff its value is at
most 2^(n-1) - 1; an unparsable literal does not fit. -/
def checkBitInt (s : List Char) (n : Nat) : Bool :=
  match parseIntLit s with
  | some v => v ≤ 2 ^ (n - 1) - 1
  | none => false

/-- valueEvaluator.num (parser.go 717-735): float literal (dot or exponent
present) yields F64; otherwise I32 when CheckBitInt(kind, 32) holds, else
I64 — this source has no U64 fallback for literals beyond 64 signed bits. -/
def num (tokenKind : List Char) : DataT :=
  if containsDotOrExp tokenKind then
    .mk TypeCode.f64 ("f64".data) [] [] none
  else
    if checkBitInt tokenKind 32 then .mk TypeCode.i32 ("i32".data) [] [] none
    else .mk TypeCode.i64 ("i64".data) [] [] none

/-- A string-typed parser value (e.g. the result of evaluating a str
variable). -/
def strValueDemo : value :=
  ⟨"s".data, .mk TypeCode.strT ("str".data) [] [] none, false, false, true, false⟩

/-- An i32-typed constant index value. -/
def intIndexDemo : value :=
  ⟨"0".data, .mk TypeCode.i32 ("i32".data) [] [] none, true, false, false, false⟩

/-- An f64-typed index value (not an integer). -/
def floatIndexDemo : value :=
  ⟨"1.5".data, .mk TypeCode.f64 ("f64".data) [] [] none, true, false, false, false⟩

/-- A constant i32 variable named x. -/
def constVarX : VarAST :=
  ⟨"x".data, .mk TypeCode.i32 ("i32".data) [] [] none, true, false⟩

/-- A two-typed return tag (i32, i32). -/
def demoRetTag : List DataT :=
  [.mk TypeCode.i32 ("i32".data) [] [] none, .mk TypeCode.i32 ("i32".data) [] [] none]

end XParser

namespace Sema

/-- sema TypeKind payloads that the embedded functions distinguish
(TypeKind.kind is an `any` in Go; the Prim/Ptr/Slc/Arr/Map accessors test
its dynamic type).  `ptrK none` is the unsafe pointer; `nilK` is the kind
of the nil literal (Go: TypeKind with kind nil). -/
inductive SKind where
  | prim (s : List Char)
  | ptrK (elem : Option SKind)
  | slcK (elem : SKind)
  | arrK (n : Nat) (elem : SKind)
  | mapK (key val : SKind)
  | fnK
  | nilK

/-- sema Data (eval.go 14-30): kind (none = void Data), and the value-shape
flags. -/
structure SData where
  kind : Option SKind
  mutableFlag : Bool
  lvalue : Bool
  variadiced : Bool
  decl : Bool
  constant : Bool

/-- The Prim() accessor of a Data's kind: its primitive name, if any. -/
def kindPrim (d : SData) : Option (List Char) :=
  match d.kind with
  | some (SKind.prim s) => some s
  | _ => none

/-- Modelled from the spec: the types package (Is_int) is not under src/.
The integer primitive kind names of the type registry. -/
def is_int (s : List Char) : Bool :=
  s ∈ ["i8".data, "i16".data, "i32".data, "i64".data, "u8".data, "u16".data,
       "u32".data, "u64".data, "int".data, "uint".data, "uintptr".data]

/-- sema eval.go check_data_for_integer_indexing (72-86): invalid_expr when
the index Data is not an integer primitive; the negative-constant branch is
disabled in the source (`d.Constant && false`).  The empty list is the Go
empty error key. -/
def check_data_for_integer_indexing (d : SData) : List Char :=
  match d.kind with
  | some (SKind.prim s) => if !is_int s then "invalid_expr".data else []
  | _ => "invalid_expr".data

/-- sema eval.go indexing_str (661-680): the indexed string Data's kind
becomes U8 (byte); the evaluated index Data is passed in (`none` = the
index evaluation failed and the source returns early); non-integer indexes
push invalid_expr; a non-constant index clears the constant flag. -/
def indexing_str (d : SData) (indexEval : Option SData) : SData × List (List Char) :=
  let d1 := { d with kind := some (SKind.prim ("u8".data)) }
  match indexEval with
  | none => (d1, [])
  | some index =>
    let errKey := check_data_for_integer_indexing index
    let errs := if errKey = [] then [] else [errKey]
    if !index.constant then ({ d1 with constant := false }, errs)
    else (d1, errs)

/-- sema eval.go lit_str (115-125): Str kind, constant, not lvalue. -/
def lit_str : SData :=
  ⟨some (SKind.prim ("str".data)), false, false, false, false, true⟩

/-- sema eval.go lit_float (164-176): F64 kind, constant, not lvalue. -/
def lit_float : SData :=
  ⟨some (SKind.prim ("f64".data)), false, false, false, false, true⟩

/-- Modelled from the spec: types.Bitsize_of_int / Int_from_bits are not
under src/.  §4.F: an integer literal gets the smallest fitting width among
I32, I64. -/
def int_from_bitsize_of (v : Nat) : List Char :=
  if v ≤ 2 ^ 31 - 1 then "i32".data else "i64".data

/-- Modelled from the spec: types.Bitsize_of_uint / Uint_from_bits are not
under src/.  §4.F: a literal fitting neither I32 nor I64 gets U64. -/
def uint_from_bitsize_of (_ : Nat) : List Char :=
  "u64".data

/-- sema eval.go lit_int (178-217): base-detected parse, ParseInt at 64 bits
first (succeeds exactly for values up to 2^63-1), else ParseUint (whose
range error is ignored, leaving MaxUint64); kind_by_bitsize maps the parsed
value to a primitive kind.  Constant, not lvalue. -/
def lit_int (s : List Char) : SData :=
  let kind :=
    match parseIntLit s with
    | some v =>
      if v ≤ 2 ^ 63 - 1 then int_from_bitsize_of v
      else uint_from_bitsize_of (min v (2 ^ 64 - 1))
    | none => uint_from_bitsize_of 0
  ⟨some (SKind.prim kind), false, false, false, false, true⟩

/-- sema Var restricted to the fields eval_var reads. -/
structure SVar where
  ident : List Char
  constant : Bool
  mutableFlag : Bool
  kind : SKind

/-- sema eval.go eval_var (328-341): inaccessible variables push
ident_not_exist and yield nil; otherwise the Data has Lvalue = !Constant,
Mutable and Constant copied from the variable. -/
def eval_var (accessible : Bool) (v : SVar) : Option SData :=
  if !accessible then none
  else some ⟨some v.kind, v.mutableFlag, !v.constant, false, false, v.constant⟩

/-- A constant string variable for witnesses. -/
def demoConstVar : SVar := ⟨"c".data, true, false, SKind.prim ("str".data)⟩

/-- The Data produced for demoConstVar. -/
def demoConstVarData : SData :=
  ⟨some (SKind.prim ("str".data)), false, false, false, false, true⟩

/-- A string-typed Data being indexed. -/
def demoStrData : SData :=
  ⟨some (SKind.prim ("str".data)), false, true, false, false, false⟩

/-- A float-typed (non-integer) index Data. -/
def demoFloatIndex : SData :=
  ⟨some (SKind.prim ("f64".data)), false, false, false, false, true⟩

end Sema

namespace XLex

/-- Lexer state (Lex): rune-index position into the file content, 1-based
line and column, accumulated error keys (pushError's formatting of path and
position is elided; the error key is recorded). -/
structure LexSt where
  pos : Nat
  line : Nat
  col : Nat
  errs : List (List Char)
deriving DecidableEq, Repr

/-- The state a lexer starts a file with. -/
def initSt : LexSt := ⟨0, 1, 1, []⟩

/-- Lex.pushError. -/
def pushError (st : LexSt) (key : List Char) : LexSt :=
  { st with errs := st.errs ++ [key] }

/-- Lex.NewLine. -/
def newLine (st : LexSt) : LexSt :=
  { st with line := st.line + 1, col := 1 }

/-- Octal digit test of the escape regexp's `[0-7]{1,3}` class. -/
def isOctalDigit (c : Char) : Bool :=
  '0' ≤ c && c ≤ '7'

/-- Exactly n characters, none a newline (the regexp `.` does not match a
newline); none when fewer remain or a newline intervenes. -/
def takeNoNl : Nat → List Char → Option (List Char)
  | 0, _ => some []
  | _ + 1, [] => none
  | n + 1, c :: rest =>
    if c = '\n' then none
    else (takeNoNl n rest).map (fun l => c :: l)

/-- Greedy run of at most n octal digits. -/
def takeOctal : Nat → List Char → List Char
  | 0, _ => []
  | _ + 1, [] => []
  | n + 1, c :: rest =>
    if isOctalDigit c then c :: takeOctal n rest else []

/-- Longest-prefix match of escapeSequenceRegexp
`^\\([\\'"abfnrtv]|U.{8}|u.{4}|x..|[0-7]{1,3})` (part_000 line 128),
returning the matched text including the backslash. -/
def escMatch : List Char → Option (List Char)
  | [] => none
  | c :: rest =>
    if c = '\\' then
      match rest with
      | [] => none
      | c2 :: rs =>
        if c2 ∈ ['\\', '\'', '"', 'a', 'b', 'f', 'n', 'r', 't', 'v'] then some ['\\', c2]
        else if c2 = 'U' then (takeNoNl 8 rs).map (fun l => '\\' :: 'U' :: l)
        else if c2 = 'u' then (takeNoNl 4 rs).map (fun l => '\\' :: 'u' :: l)
        else if c2 = 'x' then (takeNoNl 2 rs).map (fun l => '\\' :: 'x' :: l)
        else if isOctalDigit c2 then some ('\\' :: c2 :: takeOctal 2 rs)
        else none
    else none

/-- Lex.getEscapeSequence (130-139): a match advances the position by its
length; otherwise the position advances one and invalid_escape_sequence is
pushed, returning the empty string. -/
def getEscapeSequence (st : LexSt) (content : List Char) : List Char × LexSt :=
  match escMatch content with
  | some seq => (seq, { st with pos := st.pos + seq.length })
  | none => ([], pushError { st with pos := st.pos + 1 } ("invalid_escape_sequence".data))

/-- Lex.getRune (141-148): an escape sequence after a backslash, else one
code point (Go decodes one UTF-8 rune and advances the rune position by
one). -/
def getRune (st : LexSt) (content : List Char) : List Char × LexSt :=
  match content with
  | [] => ([], { st with pos := st.pos + 1 })
  | c :: _ =>
    if c = '\\' then getEscapeSequence st content
    else ([c], { st with pos := st.pos + 1 })

/-- The scanning loop of Lex.lexRune (156-175) over the body after the
opening quote, carrying the built lexeme and the code-point count; the
returned flag is true when a newline terminated the literal (the source
pushes missing_rune_end, advances one position, and starts a new line).
`index += len(run) - 1` plus the loop increment advance by the full escape
length. -/
def lexRuneLoop (st : LexSt) (sb : List Char) (count : Nat) :
    List Char → List Char × LexSt × Nat × Bool
  | [] => (sb, st, count, false)
  | c :: rest =>
    if c = '\n' then
      (sb, newLine { (pushError st ("missing_rune_end".data)) with pos := st.pos + 1 },
        count, true)
    else
      let (run, st1) := getRune st (c :: rest)
      let st2 := { st1 with col := st1.col + run.length }
      let sb1 := sb ++ run
      if run = ['\''] then (sb1, { st2 with pos := st2.pos + 1 }, count, false)
      else
        let skip := if run.length > 1 then run.length - 1 else 0
        lexRuneLoop st2 sb1 (count + 1) (rest.drop skip)
termination_by l => l.length
decreasing_by
  simp only [List.length_drop, List.length_cons]
  omega

/-- Lex.lexRune (150-182): content starts at the opening quote; zero code
points push rune_empty, two or more push rune_overflow; a newline inside
returns the empty lexeme after missing_rune_end. -/
def lexRune (st : LexSt) (content : List Char) : List Char × LexSt :=
  let st0 := { st with col := st.col + 1 }
  match lexRuneLoop st0 ['\''] 0 (content.drop 1) with
  | (sb, st1, count, nl) =>
    if nl then ([], st1)
    else if count = 0 then (sb, pushError st1 ("rune_empty".data))
    else if count > 1 then (sb, pushError st1 ("rune_overflow".data))
    else (sb, st1)

/-- The scanning loop of Lex.lexString (189-207).  NOTE: the Go loop is a
`range` loop, and the body's `index += length - 1` cannot actually advance
the range index (the range clause overwrites it), so every iteration steps
one rune while getRune may advance several positions; modelled faithfully. -/
def lexStringLoop (st : LexSt) (sb : List Char) : List Char → List Char × LexSt × Bool
  | [] => (sb, st, false)
  | c :: rest =>
    if c = '\n' then
      (sb, newLine { (pushError st ("missing_string_end".data)) with pos := st.pos + 1 }, true)
    else
      let (run, st1) := getRune st (c :: rest)
      let st2 := { st1 with col := st1.col + run.length }
      let sb1 := sb ++ run
      if run = ['"'] then (sb1, { st2 with pos := st2.pos + 1 }, false)
      else lexStringLoop st2 sb1 rest

/-- Lex.lexString (184-209): content starts at the opening double quote. -/
def lexString (st : LexSt) (content : List Char) : List Char × LexSt :=
  let st0 := { st with col := st.col + 1 }
  match lexStringLoop st0 ['"'] (content.drop 1) with
  | (sb, st1, nl) => if nl then ([], st1) else (sb, st1)

/-- The scan of Lex.lexLineComment (89-98) after the `//`. -/
def lineLoop (st : LexSt) : List Char → LexSt
  | [] => st
  | c :: rest =>
    if c = '\n' then newLine { st with pos := st.pos + 1 }
    else lineLoop { st with pos := st.pos + 1 } rest

/-- Lex.lexLineComment. -/
def lexLineComment (st : LexSt) (content : List Char) : LexSt :=
  lineLoop { st with pos := st.pos + 2 } (content.drop 2)

/-- The scan of Lex.lexBlockComment (100-116) after the `/*`; an
unterminated comment pushes missing_block_comment. -/
def blockLoop (st : LexSt) : List Char → LexSt
  | [] => pushError st ("missing_block_comment".data)
  | c :: rest =>
    if c = '\n' then blockLoop (newLine { st with pos := st.pos + 1 }) rest
    else
      let st1 := { st with col := st.col + 1 }
      if c = '*' && (match rest with | '/' :: _ => true | _ => false) then
        { st1 with col := st1.col + 2, pos := st1.pos + 2 }
      else blockLoop { st1 with pos := st1.pos + 1 } rest

/-- Lex.lexBlockComment. -/
def lexBlockComment (st : LexSt) (content : List Char) : LexSt :=
  blockLoop { st with pos := st.pos + 2 } (content.drop 2)

/-- The whitespace skip of Lex.resume (70-87): spaces advance column and
position, a newline additionally starts a new line; returns the remaining
text from the first non-space rune. -/
def resumeLoop (st : LexSt) : List Char → List Char × LexSt
  | [] => ([], st)
  | c :: rest =>
    if c.isWhitespace then
      let st1 := { st with col := st.col + 1, pos := st.pos + 1 }
      let st2 := if c = '\n' then newLine st1 else st1
      resumeLoop st2 rest
    else (c :: rest, st)

/-- Lex.resume. -/
def resume (st : LexSt) (content : List Char) : List Char × LexSt :=
  resumeLoop st (content.drop st.pos)

/-- unicode.IsPunct restricted to ASCII (the keyword boundary test). -/
def isPunctCh (c : Char) : Bool :=
  c ∈ ['!', '"', '#', '%', '&', '\'', '(', ')', '*', ',', '-', '.', '/', ':',
       ';', '?', '@', '[', '\\', ']', '_', '\x7b', '\x7d']

/-- Lex.isKeyword (32-45): prefix match with a space/punctuation/EOF
boundary. -/
def isKeyword (ln kw : List Char) : Bool :=
  if !kw.isPrefixOf ln then false
  else
    match ln.drop kw.length with
    | [] => true
    | c :: _ => c.isWhitespace || isPunctCh c

/-- The rune-collecting loop of Lex.lexName (57-65): underscore, digits and
letters (Go uses unicode.IsLetter; Char.isAlpha covers the ASCII letters). -/
def lexNameLoop (st : LexSt) (acc : List Char) : List Char → List Char × LexSt
  | [] => (acc, st)
  | c :: rest =>
    if c ≠ '_' && !('0' ≤ c && c ≤ '9') && !c.isAlpha then (acc, st)
    else lexNameLoop { st with pos := st.pos + 1 } (acc ++ [c]) rest

/-- Lex.lexName (49-67): empty unless the first rune is an underscore or a
letter. -/
def lexName (st : LexSt) (ln : List Char) : List Char × LexSt :=
  match ln with
  | [] => ([], st)
  | c :: _ =>
    if c ≠ '_' && !c.isAlpha then ([], st)
    else lexNameLoop st [] ln

def isDigit (c : Char) : Bool :=
  '0' ≤ c && c ≤ '9'

def isHexDigit (c : Char) : Bool :=
  ('0' ≤ c && c ≤ '9') || ('a' ≤ c && c ≤ 'f') || ('A' ≤ c && c ≤ 'F')

/-- The decimal alternative of numericRegexp (line 118):
`\d+ (\.\d+)? ((e|E)(-|+|)\d+)?` as Go's leftmost-first alternation
effectively matches it. -/
def decimalMatch (s : List Char) : List Char :=
  let ip := s.takeWhile isDigit
  if ip = [] then []
  else
    let rest1 := s.drop ip.length
    let frac :=
      match rest1 with
      | '.' :: r =>
        let f := r.takeWhile isDigit
        if f = [] then [] else '.' :: f
      | _ => []
    let rest2 := rest1.drop frac.length
    let ex :=
      match rest2 with
      | e :: r =>
        if e = 'e' || e = 'E' then
          match r with
          | sgn :: r2 =>
            if sgn = '-' || sgn = '+' then
              let d := r2.takeWhile isDigit
              if d = [] then [] else e :: sgn :: d
            else
              let d := r.takeWhile isDigit
              if d = [] then [] else e :: d
          | [] => []
        else []
      | [] => []
    ip ++ frac ++ ex

/-- numericRegexp.FindString: hex `0x[[:xdigit:]]+` first, else the decimal
alternative. -/
def numericMatch (s : List Char) : List Char :=
  match s with
  | '0' :: 'x' :: rest =>
    let hx := rest.takeWhile isHexDigit
    if hx = [] then decimalMatch s else '0' :: 'x' :: hx
  | _ => decimalMatch s

/-- Lex.lexNumeric (122-126). -/
def lexNumeric (st : LexSt) (content : List Char) : List Char × LexSt :=
  let v := numericMatch content
  (v, { st with pos := st.pos + v.length })

/-- Token type codes (NA, SemiColon, Comma, Brace, Value, Operator, Var,
Const, Type, Return, Name). -/
inductive TokTy where
  | na
  | semicolon
  | comma
  | brace
  | valueTy
  | operatorTy
  | varTy
  | constTy
  | typeTy
  | returnTy
  | nameTy
deriving DecidableEq, Repr

/-- The lexer's Token record (value, type, position). -/
structure TokenM where
  value : List Char
  typ : TokTy
  line : Nat
  col : Nat
deriving DecidableEq, Repr

/-- Two-character prefix test (strings.HasPrefix for two-byte operators). -/
def startsWith2 (a b : Char) : List Char → Bool
  | x :: y :: _ => x = a && y = b
  | _ => false

/-- The common tail of Lex.Token's switch: `l.Column += len(token.Value)`
and the reserved `_` prefix on names. -/
def finishTok (line0 col0 : Nat) (v : List Char) (ty : TokTy) (st : LexSt) :
    TokenM × LexSt :=
  let st2 := { st with col := st.col + v.length }
  let v2 := if ty = TokTy.nameTy then '_' :: v else v
  (⟨v2, ty, line0, col0⟩, st2)

/-- Lex.Token (part_000 218-459): resume over whitespace, then the longest
applicable production in the source's case order.  The rune/string/comment
and invalid-token cases return before the common column update, as the
source does. -/
def token (content : List Char) (st : LexSt) : TokenM × LexSt :=
  match resume st content with
  | (cnt, st) =>
    match cnt with
    | [] => (⟨[], TokTy.na, st.line, st.col⟩, st)
    | c :: _ =>
      let line0 := st.line
      let col0 := st.col
      if c = ';' then finishTok line0 col0 (";".data) TokTy.semicolon { st with pos := st.pos + 1 }
      else if c = ',' then finishTok line0 col0 (",".data) TokTy.comma { st with pos := st.pos + 1 }
      else if c = '(' then finishTok line0 col0 ("(".data) TokTy.brace { st with pos := st.pos + 1 }
      else if c = ')' then finishTok line0 col0 (")".data) TokTy.brace { st with pos := st.pos + 1 }
      else if c = '\x7b' then finishTok line0 col0 ['\x7b'] TokTy.brace { st with pos := st.pos + 1 }
      else if c = '\x7d' then finishTok line0 col0 ['\x7d'] TokTy.brace { st with pos := st.pos + 1 }
      else if c = '[' then finishTok line0 col0 ("[".data) TokTy.brace { st with pos := st.pos + 1 }
      else if c = ']' then finishTok line0 col0 ("]".data) TokTy.brace { st with pos := st.pos + 1 }
      else if c = '\'' then
        match lexRune st cnt with
        | (v, st1) => (⟨v, TokTy.valueTy, line0, col0⟩, st1)
      else if c = '"' then
        match lexString st cnt with
        | (v, st1) => (⟨v, TokTy.valueTy, line0, col0⟩, st1)
      else if startsWith2 '/' '/' cnt then (⟨[], TokTy.na, line0, col0⟩, lexLineComment st cnt)
      else if startsWith2 '/' '*' cnt then (⟨[], TokTy.na, line0, col0⟩, lexBlockComment st cnt)
      else if startsWith2 '<' '<' cnt then finishTok line0 col0 ("<<".data) TokTy.operatorTy { st with pos := st.pos + 2 }
      else if startsWith2 '>' '>' cnt then finishTok line0 col0 (">>".data) TokTy.operatorTy { st with pos := st.pos + 2 }
      else if startsWith2 '=' '=' cnt then finishTok line0 col0 ("==".data) TokTy.operatorTy { st with pos := st.pos + 2 }
      else if startsWith2 '!' '=' cnt then finishTok line0 col0 ("!=".data) TokTy.operatorTy { st with pos := st.pos + 2 }
      else if startsWith2 '>' '=' cnt then finishTok line0 col0 (">=".data) TokTy.operatorTy { st with pos := st.pos + 2 }
      else if startsWith2 '<' '=' cnt then finishTok line0 col0 ("<=".data) TokTy.operatorTy { st with pos := st.pos + 2 }
      else if startsWith2 '&' '&' cnt then finishTok line0 col0 ("&&".data) TokTy.operatorTy { st with pos := st.pos + 2 }
      else if startsWith2 '|' '|' cnt then finishTok line0 col0 ("||".data) TokTy.operatorTy { st with pos := st.pos + 2 }
      else if c = '+' then finishTok line0 col0 ("+".data) TokTy.operatorTy { st with pos := st.pos + 1 }
      else if c = '-' then finishTok line0 col0 ("-".data) TokTy.operatorTy { st with pos := st.pos + 1 }
      else if c = '*' then finishTok line0 col0 ("*".data) TokTy.operatorTy { st with pos := st.pos + 1 }
      else if c = '/' then finishTok line0 col0 ("/".data) TokTy.operatorTy { st with pos := st.pos + 1 }
      else if c = '%' then finishTok line0 col0 ("%".data) TokTy.operatorTy { st with pos := st.pos + 1 }
      else if c = '~' then finishTok line0 col0 ("~".data) TokTy.operatorTy { st with pos := st.pos + 1 }
      else if c = '&' then finishTok line0 col0 ("&".data) TokTy.operatorTy { st with pos := st.pos + 1 }
      else if c = '|' then finishTok line0 col0 ("|".data) TokTy.operatorTy { st with pos := st.pos + 1 }
      else if c = '^' then finishTok line0 col0 ("^".data) TokTy.operatorTy { st with pos := st.pos + 1 }
      else if c = '!' then finishTok line0 col0 ("!".data) TokTy.operatorTy { st with pos := st.pos + 1 }
      else if c = '<' then finishTok line0 col0 ("<".data) TokTy.operatorTy { st with pos := st.pos + 1 }
      else if c = '>' then finishTok line0 col0 (">".data) TokTy.operatorTy { st with pos := st.pos + 1 }
      else if c = '=' then finishTok line0 col0 ("=".data) TokTy.operatorTy { st with pos := st.pos + 1 }
      else if isKeyword cnt ("var".data) then finishTok line0 col0 ("var".data) TokTy.varTy { st with pos := st.pos + 3 }
      else if isKeyword cnt ("const".data) then finishTok line0 col0 ("const".data) TokTy.constTy { st with pos := st.pos + 5 }
      else if isKeyword cnt ("int8".data) then finishTok line0 col0 ("int8".data) TokTy.typeTy { st with pos := st.pos + 4 }
      else if isKeyword cnt ("int16".data) then finishTok line0 col0 ("int16".data) TokTy.typeTy { st with pos := st.pos + 5 }
      else if isKeyword cnt ("int32".data) then finishTok line0 col0 ("int32".data) TokTy.typeTy { st with pos := st.pos + 5 }
      else if isKeyword cnt ("int64".data) then finishTok line0 col0 ("int64".data) TokTy.typeTy { st with pos := st.pos + 5 }
      else if isKeyword cnt ("uint8".data) then finishTok line0 col0 ("uint8".data) TokTy.typeTy { st with pos := st.pos + 5 }
      else if isKeyword cnt ("uint16".data) then finishTok line0 col0 ("uint16".data) TokTy.typeTy { st with pos := st.pos + 6 }
      else if isKeyword cnt ("uint32".data) then finishTok line0 col0 ("uint32".data) TokTy.typeTy { st with pos := st.pos + 6 }
      else if isKeyword cnt ("uint64".data) then finishTok line0 col0 ("uint64".data) TokTy.typeTy { st with pos := st.pos + 6 }
      else if isKeyword cnt ("float32".data) then finishTok line0 col0 ("float32".data) TokTy.typeTy { st with pos := st.pos + 7 }
      else if isKeyword cnt ("float64".data) then finishTok line0 col0 ("float64".data) TokTy.typeTy { st with pos := st.pos + 7 }
      else if isKeyword cnt ("ret".data) then finishTok line0 col0 ("ret".data) TokTy.returnTy { st with pos := st.pos + 3 }
      else if isKeyword cnt ("bool".data) then finishTok line0 col0 ("bool".data) TokTy.typeTy { st with pos := st.pos + 4 }
      else if isKeyword cnt ("rune".data) then finishTok line0 col0 ("rune".data) TokTy.typeTy { st with pos := st.pos + 4 }
      else if isKeyword cnt ("str".data) then finishTok line0 col0 ("str".data) TokTy.typeTy { st with pos := st.pos + 3 }
      else if isKeyword cnt ("true".data) then finishTok line0 col0 ("true".data) TokTy.valueTy { st with pos := st.pos + 4 }
      else if isKeyword cnt ("false".data) then finishTok line0 col0 ("false".data) TokTy.valueTy { st with pos := st.pos + 5 }
      else
        match lexName st cnt with
        | (nm, st1) =>
          if nm ≠ [] then finishTok line0 col0 nm TokTy.nameTy st1
          else
            match lexNumeric st cnt with
            | (nu, st2) =>
              if nu ≠ [] then finishTok line0 col0 nu TokTy.valueTy st2
              else
                (⟨[], TokTy.na, line0, col0⟩,
                  { (pushError st ("invalid_token".data)) with
                      col := st.col + 1, pos := st.pos + 1 })

/-- Lex.Tokenize (19-29): loop Token while the position is before the end
of the content, keeping non-NA tokens.  A fuel parameter bounds the number
of Token calls, since Token is not guaranteed to make progress; `none`
means the loop was still running when the fuel ran out. -/
def tokenizeFuel (content : List Char) : Nat → LexSt → List TokenM →
    Option (List TokenM × LexSt)
  | 0, _, _ => none
  | n + 1, st, acc =>
    if st.pos < content.length then
      match token content st with
      | (tok, st1) =>
        tokenizeFuel content n st1 (if tok.typ ≠ TokTy.na then acc ++ [tok] else acc)
    else some (acc, st)

/-- A source file consisting of a single rune-literal quote. -/
def quoteSrc : List Char := ['\'']

/-- Specification-side count of the code points of a rune literal body (the
text after the opening quote): an escape sequence — or the lone backslash of
an invalid escape — counts as one point; the count stops at an unescaped
closing quote or at the end of input; `none` when a newline terminates the
literal first. -/
def runeScan : List Char → Option Nat
  | [] => some 0
  | c :: rest =>
    if c = '\n' then none
    else if c = '\'' then some 0
    else if c = '\\' then
      match escMatch (c :: rest) with
      | some seq => (runeScan (rest.drop (seq.length - 1))).map (fun n => n + 1)
      | none => (runeScan rest).map (fun n => n + 1)
    else (runeScan rest).map (fun n => n + 1)
termination_by l => l.length
decreasing_by
  all_goals simp only [List.length_drop, List.length_cons]
  all_goals omega

end XLex

namespace XParser

/-- Parser's checker state for statement checking: iterCount (the
iteration-nesting counter the Go Parser carries as a field, an int) and the
accumulated error keys (pusherrtok's message keys). -/
structure ChkSt where
  iterCount : Int
  errs : List (List Char)
deriving DecidableEq, Repr

/-- Parser.pusherrtok / pusherr: append the message key. -/
def pushChk (p : ChkSt) (key : List Char) : ChkSt :=
  { p with errs := p.errs ++ [key] }

/-- p.iterCount++ (parser.go 2213). -/
def incIter (p : ChkSt) : ChkSt :=
  { p with iterCount := p.iterCount + 1 }

/-- p.iterCount-- (parser.go 2222). -/
def decIter (p : ChkSt) : ChkSt :=
  { p with iterCount := p.iterCount - 1 }

/-- Parser.checkBreakStatement (2264-2268): break_at_outiter iff the
iteration counter is zero. -/
def checkBreakStatement (p : ChkSt) : ChkSt :=
  if p.iterCount = 0 then pushChk p ("break_at_outiter".data) else p

/-- Parser.checkContinueStatement (2270-2274). -/
def checkContinueStatement (p : ChkSt) : ChkSt :=
  if p.iterCount = 0 then pushChk p ("continue_at_outiter".data) else p

mutual
/-- An iter statement's profile (ast.WhileProfile / ast.ForeachProfile /
nil).  boolOk and enumerable stand for the outcome of the expression checks
isBoolExpr and isForeachIterExpr, which only decide whether a diagnostic is
pushed. -/
inductive ProfileM where
  | noneP : ProfileM
  | whileP (boolOk : Bool) (block : List StmtM) : ProfileM
  | foreachP (enumerable : Bool) (block : List StmtM) : ProfileM

/-- The statement forms Parser.checkBlock (1769-1800) dispatches on; the
value-level detail that does not touch iterCount or the checked blocks is
dropped.  ifS/elifS carry the WithTerminator flag of the statement and the
isBoolExpr outcome of their condition. -/
inductive StmtM where
  | exprS : StmtM
  | varS : StmtM
  | assignS : StmtM
  | freeS : StmtM
  | retS : StmtM
  | invalidS : StmtM
  | breakS : StmtM
  | continueS : StmtM
  | iterS (profile : ProfileM) : StmtM
  | ifS (boolOk : Bool) (term : Bool) (block : List StmtM) : StmtM
  | elifS (boolOk : Bool) (term : Bool) (block : List StmtM) : StmtM
  | elseS (block : List StmtM) : StmtM
end

mutual

/-- Parser.checkBlock (1769-1800): one pass over the statement list.  An If
statement runs Parser.checkIfExpr (2225-2258): its own block is checked,
then when WithTerminator holds checkIfExpr returns at the goto label and the
outer loop resumes (an ElseIf/Else met directly by checkBlock falls to the
default case, invalid_syntax); otherwise the chain walk continues in
checkIfChain. -/
def checkBlock (p : ChkSt) : List StmtM → ChkSt
  | [] => p
  | .exprS :: rest => checkBlock p rest
  | .varS :: rest => checkBlock p rest
  | .assignS :: rest => checkBlock p rest
  | .freeS :: rest => checkBlock p rest
  | .retS :: rest => checkBlock p rest
  | .invalidS :: rest => checkBlock (pushChk p ("invalid_syntax".data)) rest
  | .breakS :: rest => checkBlock (checkBreakStatement p) rest
  | .continueS :: rest => checkBlock (checkContinueStatement p) rest
  | .iterS prof :: rest => checkBlock (checkIterExpr p prof) rest
  | .ifS boolOk term blk :: rest =>
    if term then
      checkBlock
        (checkBlock (if boolOk then p else pushChk p ("if_notbool_expr".data)) blk) rest
    else
      checkIfChain
        (checkBlock (if boolOk then p else pushChk p ("if_notbool_expr".data)) blk) rest
  | .elifS _ _ _ :: rest => checkBlock (pushChk p ("invalid_syntax".data)) rest
  | .elseS _ :: rest => checkBlock (pushChk p ("invalid_syntax".data)) rest
termination_by l => (sizeOf l, 1)

/-- The goto-node loop of Parser.checkIfExpr (2233-2257) fused with the
continuation of checkBlock's for loop: each ElseIf checks its condition and
block and loops (stopping at WithTerminator), an Else checks its block and
returns to checkBlock, anything else rolls the index back (`*index--`) and
returns to checkBlock. -/
def checkIfChain (p : ChkSt) : List StmtM → ChkSt
  | .elifS boolOk term blk :: rest =>
    if term then
      checkBlock
        (checkBlock (if boolOk then p else pushChk p ("if_notbool_expr".data)) blk) rest
    else
      checkIfChain
        (checkBlock (if boolOk then p else pushChk p ("if_notbool_expr".data)) blk) rest
  | .elseS blk :: rest => checkBlock (checkBlock p blk) rest
  | l => checkBlock p l
termination_by l => (sizeOf l, 2)

/-- Parser.checkIterExpr (2212-2223): iterCount++, dispatch on the profile
(nil profile: no body), iterCount--. -/
def checkIterExpr (p : ChkSt) (profile : ProfileM) : ChkSt :=
  decIter
    (match profile with
      | .noneP => incIter p
      | .whileP boolOk blk => checkWhileProfile (incIter p) boolOk blk
      | .foreachP en blk => checkForeachProfile (incIter p) en blk)
termination_by (sizeOf profile, 3)

/-- Parser.checkWhileProfile (2097-2106): iter_while_notbool_expr unless the
condition is boolean, then the block. -/
def checkWhileProfile (p : ChkSt) (boolOk : Bool) (blk : List StmtM) : ChkSt :=
  checkBlock (if boolOk then p else pushChk p ("iter_while_notbool_expr".data)) blk
termination_by (sizeOf blk, 2)

/-- Parser.checkForeachProfile (2183-2210): iter_foreach_nonenumerable_expr
unless the expression is enumerable (the key type checks push no errors in
this model and never touch iterCount), then the block. -/
def checkForeachProfile (p : ChkSt) (en : Bool) (blk : List StmtM) : ChkSt :=
  checkBlock (if en then p else pushChk p ("iter_foreach_nonenumerable_expr".data)) blk
termination_by (sizeOf blk, 2)

end

end XParser

namespace XParser

theorem partPrec_out_of_range (ps : List (List Tok)) (i : Nat) (q : Nat)
    (h : partPrec (ps.getD i []) = some q) : i < ps.length := by
  by_contra hge
  rw [List.getD_eq_default _ _ (by omega)] at h
  simp [partPrec, partOpKind] at h

theorem regNone (k : Nat) (ps : List (List Tok))
    (h : lastIdxA k 0 ps (-1) = -1) :
    ∀ i, i < ps.length → partPrec (ps.getD i []) ≠ some k := by
  rcases lastIdxA_char k ps 0 (-1) with ⟨_, hnone⟩ | ⟨j, hj, _, _, _, _⟩
  · exact fun i hi => hnone i hi
  · rw [hj, Int.ofNat_eq_coe] at h; exact absurd h (by omega)

theorem nextOp_select (ps : List (List Tok)) (j k : Nat)
    (hreg : lastIdxA k 0 ps (-1) = Int.ofNat j)
    (hhi : ∀ q, k < q → ∀ i, i < ps.length → partPrec (ps.getD i []) ≠ some q) :
    ∃ p, partPrec (ps.getD j []) = some p ∧
      (∀ i q, partPrec (ps.getD i []) = some q → q ≤ p) ∧
      (∀ i, j < i → i < ps.length → partPrec (ps.getD i []) ≠ some p) := by
  rcases lastIdxA_char k ps 0 (-1) with ⟨heq, _⟩ | ⟨j', hj', _, hlt, hat, hafter⟩
  · rw [heq] at hreg
    rw [Int.ofNat_eq_coe] at hreg
    exact absurd hreg (by omega)
  · have hjj : j' = j := by
      rw [hj'] at hreg
      exact Int.ofNat.inj hreg
    subst hjj
    refine ⟨k, by simpa using hat, ?_, ?_⟩
    · intro i q hq
      by_contra hgt
      exact hhi q (by omega) i (partPrec_out_of_range ps i q hq) hq
    · intro i hji hilen
      have := hafter i (by omega) hilen
      simpa using this

theorem st_reg (ps : List (List Tok)) (k : Nat) (h1 : 1 ≤ k) (h5 : k ≤ 5) :
    (scanPrec 0 ps ⟨-1, -1, -1, -1, -1⟩).f k = lastIdxA k 0 ps (-1) := by
  have := scanPrec_f k h1 h5 ps 0 ⟨-1, -1, -1, -1, -1⟩
  rw [this]
  have : PrecIdx.f ⟨-1, -1, -1, -1, -1⟩ k = -1 := by
    unfold PrecIdx.f
    split <;> rfl
  rw [this]

/-- C1 (amended): when parser.go nextOperator selects an operator process at
index `j`, that process has the highest precedence occurring among the
remaining operator processes, and it is the RIGHTMOST occurrence of that
precedence (the Go loop overwrites each precedence register on every match,
so ties go to the last occurrence, not the leftmost). -/
theorem C1_nextOperator_highest_rightmost (ps : List (List Tok)) (j : Nat)
    (h : nextOperator ps = Int.ofNat j) :
    ∃ p, partPrec (ps.getD j []) = some p ∧
      (∀ i q, partPrec (ps.getD i []) = some q → q ≤ p) ∧
      (∀ i, j < i → i < ps.length → partPrec (ps.getD i []) ≠ some p) := by
  unfold nextOperator at h
  have e5 : (scanPrec 0 ps ⟨-1, -1, -1, -1, -1⟩).precedence5 = lastIdxA 5 0 ps (-1) :=
    st_reg ps 5 (by omega) (by omega)
  have e4 : (scanPrec 0 ps ⟨-1, -1, -1, -1, -1⟩).precedence4 = lastIdxA 4 0 ps (-1) :=
    st_reg ps 4 (by omega) (by omega)
  have e3 : (scanPrec 0 ps ⟨-1, -1, -1, -1, -1⟩).precedence3 = lastIdxA 3 0 ps (-1) :=
    st_reg ps 3 (by omega) (by omega)
  have e2 : (scanPrec 0 ps ⟨-1, -1, -1, -1, -1⟩).precedence2 = lastIdxA 2 0 ps (-1) :=
    st_reg ps 2 (by omega) (by omega)
  have e1 : (scanPrec 0 ps ⟨-1, -1, -1, -1, -1⟩).precedence1 = lastIdxA 1 0 ps (-1) :=
    st_reg ps 1 (by omega) (by omega)
  simp only [e5, e4, e3, e2, e1] at h
  have hr6 : ∀ q, 5 < q → ∀ i, i < ps.length → partPrec (ps.getD i []) ≠ some q := by
    intro q hq i _ hc
    have := partPrec_range _ _ hc
    omega
  split_ifs at h with c5 c4 c3 c2
  · exact nextOp_select ps j 5 h hr6
  · refine nextOp_select ps j 4 h ?_
    intro q hq
    rcases Nat.lt_or_ge 5 q with h5q | h5q
    · exact hr6 q h5q
    · have hq5 : q = 5 := by omega
      subst hq5
      exact regNone 5 ps (by omega)
  · refine nextOp_select ps j 3 h ?_
    intro q hq
    rcases Nat.lt_or_ge 5 q with h5q | h5q
    · exact hr6 q h5q
    · have n5 := regNone 5 ps (by omega)
      have n4 := regNone 4 ps (by omega)
      interval_cases q
      · exact n4
      · exact n5
  · refine nextOp_select ps j 2 h ?_
    intro q hq
    rcases Nat.lt_or_ge 5 q with h5q | h5q
    · exact hr6 q h5q
    · have n5 := regNone 5 ps (by omega)
      have n4 := regNone 4 ps (by omega)
      have n3 := regNone 3 ps (by omega)
      interval_cases q
      · exact n3
      · exact n4
      · exact n5
  · refine nextOp_select ps j 1 h ?_
    intro q hq
    rcases Nat.lt_or_ge 5 q with h5q | h5q
    · exact hr6 q h5q
    · have n5 := regNone 5 ps (by omega)
      have n4 := regNone 4 ps (by omega)
      have n3 := regNone 3 ps (by omega)
      have n2 := regNone 2 ps (by omega)
      interval_cases q
      · exact n2
      · exact n3
      · exact n4
      · exact n5

/-- C1 (counterexample): on the processes of `1 + 1 + 1` the evaluator's
nextOperator returns index 3, although an operator of the same (highest
remaining) precedence occurs earlier at index 1 — so the selection is NOT
the leftmost occurrence among equal-precedence operators. -/
theorem C1_counterexample :
    nextOperator cexProcesses = Int.ofNat 3 ∧
    partPrec (cexProcesses.getD 1 []) = some 4 ∧
    partPrec (cexProcesses.getD 3 []) = some 4 ∧
    cexProcesses.map partPrec = [none, some 4, none, some 4, none] := by
  decide

/-- C1 witness: the amended theorem applied to the concrete processes of
`1 + 1 + 1` (selected index 3, precedence 4, nothing of that precedence to
its right). -/
theorem C1_nextOperator_highest_rightmost_witness :
    ∃ p, partPrec (cexProcesses.getD 3 []) = some p ∧
      (∀ i q, partPrec (cexProcesses.getD i []) = some q → q ≤ p) ∧
      (∀ i, 3 < i → i < cexProcesses.length → partPrec (cexProcesses.getD i []) ≠ some p) :=
  C1_nextOperator_highest_rightmost cexProcesses 3 (by decide)

/-- C4 (counterexample): the slice type `[]i32` is an array/slice type but the
nil-compatibility predicate typeIsNilCompatible rejects it — the source
predicate covers only pointer and Func types, not slice/array types as the
claim states. -/
theorem C4_counterexample :
    typeIsArray sliceI32 = true ∧ typeIsNilCompatible sliceI32 = false := by
  decide

/-- C4 (amended): typeIsNilCompatible holds exactly for pointer types and
Func types; array/slice types are NOT nil-compatible by this predicate, yet
they still accept a `nil` source because typesAreCompatible routes them
through checkArrayCompatiblity, which accepts a Nil-coded other side. -/
theorem C4_nil_compatible_characterization (t : DataT) :
    (typeIsNilCompatible t = true ↔ (typeIsPointer t = true ∨ t.code = TypeCode.funcT)) ∧
    (typeIsArray t = true → t.code ≠ TypeCode.funcT → typeIsNilCompatible t = false) ∧
    (typeIsNilCompatible t = true → typesAreCompatible t nilLiteralType false = true) ∧
    (typeIsArray t = true → typesAreCompatible t nilLiteralType false = true) := by
  refine ⟨?_, ?_, ?_, ?_⟩
  · simp [typeIsNilCompatible, Bool.or_eq_true, decide_eq_true_eq, or_comm]
  · intro harr hne
    unfold typeIsNilCompatible typeIsPointer
    unfold typeIsArray at harr
    cases hv : t.value with
    | nil => rw [hv] at harr; simp at harr
    | cons c cs =>
      rw [hv] at harr
      simp only [decide_eq_true_eq] at harr
      simp [hne, harr]
  · intro hnc
    by_cases ha : typeIsArray t = true
    · unfold typesAreCompatible
      rw [ha]
      rfl
    · have ha' : typeIsArray t = false := by
        cases h : typeIsArray t
        · rfl
        · exact absurd h ha
      unfold typesAreCompatible
      rw [ha', hnc]
      have h2 : nilLiteralType.code = TypeCode.nilT := rfl
      have h3 : typeIsArray nilLiteralType = false := rfl
      simp [h2, h3]
  · intro harr
    unfold typesAreCompatible
    rw [harr]
    rfl

/-- C4 witness: the amended characterization applied to the pointer type
`*i32` — it is nil-compatible and compatible with the nil literal. -/
theorem C4_nil_compatible_witness :
    typeIsNilCompatible ptrI32 = true ∧ typesAreCompatible ptrI32 nilLiteralType false = true :=
  ⟨by decide, (C4_nil_compatible_characterization ptrI32).2.2.1 (by decide)⟩

end XParser

namespace XParser

theorem readyParams_mono_of (rtf rtg : DataT → Option (DataT × Bool))
    (hR : ∀ dt x, rtf dt = some x → rtg dt = some x) :
    ∀ l y, readyParams rtf l = some y → readyParams rtg l = some y := by
  intro l
  induction l with
  | nil => intro y h; simpa [readyParams] using h
  | cons p rest ih =>
    intro y h
    simp only [readyParams] at h ⊢
    cases hp : rtf p with
    | none => rw [hp] at h; simp at h
    | some x =>
      rw [hp] at h
      obtain ⟨p1, ok⟩ := x
      cases hr : readyParams rtf rest with
      | none => rw [hr] at h; simp at h
      | some rest1 =>
        rw [hr] at h
        rw [hR p (p1, ok) hp, ih rest1 hr]
        exact h

theorem readyType_mono (tbl : List TypeAliasT) :
    ∀ f g, f ≤ g → ∀ dt x, readyType tbl f dt = some x → readyType tbl g dt = some x := by
  intro f
  induction f with
  | zero => intro g hg dt x h; simp [readyType] at h
  | succ f ih =>
    intro g hg dt x h
    obtain ⟨g1, rfl⟩ : ∃ g2, g = g2 + 1 := ⟨g - 1, by omega⟩
    have hg1 : f ≤ g1 := by omega
    cases dt with
    | mk code value tk ps ret =>
      simp only [readyType] at h ⊢
      by_cases hv : value = []
      · rw [if_pos hv] at h ⊢; exact h
      · rw [if_neg hv] at h ⊢
        cases code <;> try exact h
        · cases ht : typeById tbl tk with
          | none => rw [ht] at h; exact h
          | some t =>
            rw [ht] at h
            exact ih g1 hg1 _ x h
        · cases hps : readyParams (readyType tbl f) ps with
          | none => rw [hps] at h; simp at h
          | some ps1 =>
            rw [hps] at h
            rw [readyParams_mono_of (readyType tbl f) (readyType tbl g1) (ih g1 hg1) ps ps1 hps]
            cases ret with
            | none => exact h
            | some rt =>
              dsimp only at h
              cases hrt : readyType tbl f rt with
              | none => rw [hrt] at h; simp at h
              | some y =>
                rw [hrt] at h
                dsimp only
                rw [ih g1 hg1 rt y hrt]
                exact h

theorem readyParams_fix_of (rtf rtg : DataT → Option (DataT × Bool))
    (hR : ∀ dt r ok, rtf dt = some (r, ok) → rtg r = some (r, ok)) :
    ∀ l l1, readyParams rtf l = some l1 → readyParams rtg l1 = some l1 := by
  intro l
  induction l with
  | nil =>
    intro l1 h
    simp only [readyParams] at h
    obtain rfl : ([] : List DataT) = l1 := by simpa using h
    simp [readyParams]
  | cons p rest ih =>
    intro l1 h
    simp only [readyParams] at h
    cases hp : rtf p with
    | none => rw [hp] at h; simp at h
    | some x =>
      rw [hp] at h
      obtain ⟨p1, ok⟩ := x
      cases hr : readyParams rtf rest with
      | none => rw [hr] at h; simp at h
      | some rest1 =>
        rw [hr] at h
        obtain rfl : p1 :: rest1 = l1 := by simpa using h
        simp only [readyParams]
        rw [hR p p1 ok hp, ih rest1 hr]

theorem dataTypeString_ne_nil (ps : List DataT) (ret : Option DataT) :
    dataTypeString ps ret ≠ [] := by
  unfold dataTypeString
  simp

theorem readyType_fix (tbl : List TypeAliasT) :
    ∀ f g, f ≤ g → ∀ dt r ok,
      readyType tbl f dt = some (r, ok) → readyType tbl g r = some (r, ok) := by
  intro f
  induction f with
  | zero => intro g hg dt r ok h; simp [readyType] at h
  | succ f ih =>
    intro g hg dt r ok h
    obtain ⟨g1, rfl⟩ : ∃ g2, g = g2 + 1 := ⟨g - 1, by omega⟩
    have hg1 : f ≤ g1 := by omega
    cases dt with
    | mk code value tk ps ret =>
      simp only [readyType] at h
      by_cases hv : value = []
      · rw [if_pos hv] at h
        simp only [Option.some.injEq, Prod.mk.injEq] at h
        obtain ⟨h1, h2⟩ := h
        subst h1
        subst h2
        simp only [readyType]
        rw [if_pos hv]
      · rw [if_neg hv] at h
        cases code
        all_goals try (
          simp only [Option.some.injEq, Prod.mk.injEq] at h
          obtain ⟨h1, h2⟩ := h
          subst h1
          subst h2
          simp only [readyType]
          rw [if_neg hv])
        · -- Name
          cases ht : typeById tbl tk with
          | none =>
            rw [ht] at h
            simp only [Option.some.injEq, Prod.mk.injEq] at h
            obtain ⟨h1, h2⟩ := h
            subst h1
            subst h2
            simp only [readyType]
            rw [if_neg hv]
            rw [ht]
          | some t =>
            rw [ht] at h
            exact ih (g1 + 1) (by omega) _ r ok h
        · -- Func
          cases hps : readyParams (readyType tbl f) ps with
          | none => rw [hps] at h; simp at h
          | some ps1 =>
            rw [hps] at h
            cases ret with
            | none =>
              simp only [Option.some.injEq, Prod.mk.injEq] at h
              obtain ⟨h1, h2⟩ := h
              subst h1
              subst h2
              simp only [readyType]
              rw [if_neg (dataTypeString_ne_nil ps1 none)]
              rw [readyParams_fix_of (readyType tbl f) (readyType tbl g1)
                (fun dt r2 ok2 => ih g1 hg1 dt r2 ok2) ps ps1 hps]
            | some rt =>
              dsimp only at h
              cases hrt : readyType tbl f rt with
              | none => rw [hrt] at h; simp at h
              | some y =>
                rw [hrt] at h
                simp only [Option.some.injEq, Prod.mk.injEq] at h
                obtain ⟨h1, h2⟩ := h
                subst h1
                subst h2
                simp only [readyType]
                rw [if_neg (dataTypeString_ne_nil ps1 (some rt))]
                rw [readyParams_fix_of (readyType tbl f) (readyType tbl g1)
                  (fun dt r2 ok2 => ih g1 hg1 dt r2 ok2) ps ps1 hps]
                rw [readyType_mono tbl f g1 hg1 rt y hrt]

/-- C5: type resolution is idempotent — whenever readyType succeeds
(`ok = true`), applying readyType to the result returns the same type again
(with the same fuel, over the same alias table). -/
theorem C5_readyType_idempotent (tbl : List TypeAliasT) (fuel : Nat) (t r : DataT)
    (h : readyType tbl fuel t = some (r, true)) :
    readyType tbl fuel r = some (r, true) :=
  readyType_fix tbl fuel fuel (le_refl fuel) t r true h

/-- C5 witness: resolving the alias `Int` (bound to `i32` in the demo table)
and resolving its result again both yield the resolved `i32` type. -/
theorem C5_readyType_idempotent_witness :
    readyType demoTable 2 demoNamedType = some (demoResolvedType, true) ∧
    readyType demoTable 2 demoResolvedType = some (demoResolvedType, true) :=
  ⟨rfl, C5_readyType_idempotent demoTable 2 demoNamedType demoResolvedType rfl⟩

end XParser

/-- C2 (counterexample): in the parser evaluator, indexing a string-typed
value with a valid integer index yields a Rune-coded result — not the byte
type U8 the claim states — and no diagnostic. -/
theorem C2_counterexample :
    ((XParser.evalStrSelect XParser.strValueDemo XParser.intIndexDemo).1).typ.code =
      XParser.TypeCode.runeT ∧
    XParser.TypeCode.runeT ≠ XParser.TypeCode.u8 ∧
    (XParser.evalStrSelect XParser.strValueDemo XParser.intIndexDemo).2 = [] := by
  decide

/-- C2 (amended): string indexing yields byte type U8 in the sema
evaluator's indexing_str — with invalid_expr pushed when the index is not an
integer primitive — while the legacy parser evaluator's evalStrSelect yields
Rune, pushing notint_string_select for non-integer index types. -/
theorem withCode_code (t : XParser.DataT) (c : XParser.TypeCode) :
    (t.withCode c).code = c := by
  cases t
  rfl

theorem C2_string_indexing (d ix : Sema.SData) (sv iv : XParser.value) :
    (((Sema.indexing_str d (some ix)).1).kind = some (Sema.SKind.prim ("u8".data))) ∧
    (Sema.kindPrim ix = none → ("invalid_expr".data) ∈ (Sema.indexing_str d (some ix)).2) ∧
    (∀ p, Sema.kindPrim ix = some p → Sema.is_int p = false →
      ("invalid_expr".data) ∈ (Sema.indexing_str d (some ix)).2) ∧
    (((XParser.evalStrSelect sv iv).1).typ.code = XParser.TypeCode.runeT) ∧
    (XParser.xIsIntegerType iv.typ.code = false →
      ("notint_string_select".data) ∈ (XParser.evalStrSelect sv iv).2) := by
  refine ⟨?_, ?_, ?_, ?_, ?_⟩
  · unfold Sema.indexing_str
    dsimp only
    split_ifs <;> rfl
  · intro hp
    have hk : Sema.check_data_for_integer_indexing ix = "invalid_expr".data := by
      unfold Sema.check_data_for_integer_indexing
      unfold Sema.kindPrim at hp
      cases hkind : ix.kind with
      | none => rfl
      | some k =>
        rw [hkind] at hp
        cases k with
        | prim q => simp at hp
        | ptrK e => rfl
        | slcK e => rfl
        | arrK n e => rfl
        | mapK a b => rfl
        | fnK => rfl
        | nilK => rfl
    unfold Sema.indexing_str
    dsimp only
    rw [hk]
    split_ifs <;> simp_all
  · intro p hp hint
    have hk : Sema.check_data_for_integer_indexing ix = "invalid_expr".data := by
      unfold Sema.check_data_for_integer_indexing
      unfold Sema.kindPrim at hp
      cases hkind : ix.kind with
      | none => rfl
      | some k =>
        rw [hkind] at hp
        cases k with
        | prim q =>
          simp only [Option.some.injEq] at hp
          subst hp
          simp [hint]
        | ptrK e => simp at hp
        | slcK e => simp at hp
        | arrK n e => simp at hp
        | mapK a b => simp at hp
        | fnK => simp at hp
        | nilK => simp at hp
    unfold Sema.indexing_str
    dsimp only
    rw [hk]
    split_ifs <;> simp_all
  · unfold XParser.evalStrSelect
    dsimp only
    split_ifs <;> exact withCode_code sv.typ XParser.TypeCode.runeT
  · intro hni
    unfold XParser.evalStrSelect
    dsimp only
    rw [if_pos (by simp [hni])]
    simp

/-- C2 witness: concrete string value indexed by a float — sema yields U8
and pushes invalid_expr, the parser yields Rune and pushes
notint_string_select. -/
theorem C2_string_indexing_witness :
    ((Sema.indexing_str Sema.demoStrData (some Sema.demoFloatIndex)).1).kind =
      some (Sema.SKind.prim ("u8".data)) ∧
    ("invalid_expr".data) ∈ (Sema.indexing_str Sema.demoStrData (some Sema.demoFloatIndex)).2 ∧
    ("notint_string_select".data) ∈
      (XParser.evalStrSelect XParser.strValueDemo XParser.floatIndexDemo).2 := by
  refine ⟨?_, ?_, ?_⟩
  · exact (C2_string_indexing Sema.demoStrData Sema.demoFloatIndex
      XParser.strValueDemo XParser.floatIndexDemo).1
  · exact (C2_string_indexing Sema.demoStrData Sema.demoFloatIndex
      XParser.strValueDemo XParser.floatIndexDemo).2.2.1 ("f64".data) (by decide) (by decide)
  · exact (C2_string_indexing Sema.demoStrData Sema.demoFloatIndex
      XParser.strValueDemo XParser.floatIndexDemo).2.2.2.2 (by decide)

/-- C3 (counterexample): the literal 18446744073709551615 (= 2^64 - 1) fits
in no signed width, yet the parser evaluator's num types it I64, not the U64
the claim states; the sema evaluator's lit_int does give U64. -/
theorem C3_counterexample :
    (XParser.num ("18446744073709551615".data)).code = XParser.TypeCode.i64 ∧
    XParser.TypeCode.i64 ≠ XParser.TypeCode.u64 ∧
    Sema.kindPrim (Sema.lit_int ("18446744073709551615".data)) = some ("u64".data) := by
  decide

/-- C3 (amended): in the sema evaluator, an integer literal gets the
smallest of I32 and I64 whose signed range holds its value and U64 when it
fits neither, and a float literal gets F64; in the parser evaluator, a
literal with a dot or exponent gets F64 and an integer literal gets I32 when
it fits 32 signed bits and I64 otherwise — never U64. -/
theorem C3_literal_kinds (s : List Char) (v : Nat) :
    (XParser.containsDotOrExp s = true → (XParser.num s).code = XParser.TypeCode.f64) ∧
    (XParser.containsDotOrExp s = false → XParser.checkBitInt s 32 = true →
      (XParser.num s).code = XParser.TypeCode.i32) ∧
    (XParser.containsDotOrExp s = false → XParser.checkBitInt s 32 = false →
      (XParser.num s).code = XParser.TypeCode.i64) ∧
    (parseIntLit s = some v → v ≤ 2 ^ 31 - 1 →
      (Sema.lit_int s).kind = some (Sema.SKind.prim ("i32".data))) ∧
    (parseIntLit s = some v → 2 ^ 31 - 1 < v → v ≤ 2 ^ 63 - 1 →
      (Sema.lit_int s).kind = some (Sema.SKind.prim ("i64".data))) ∧
    (parseIntLit s = some v → 2 ^ 63 - 1 < v →
      (Sema.lit_int s).kind = some (Sema.SKind.prim ("u64".data))) ∧
    (Sema.lit_float.kind = some (Sema.SKind.prim ("f64".data))) := by
  refine ⟨?_, ?_, ?_, ?_, ?_, ?_, rfl⟩
  · intro hf
    unfold XParser.num
    rw [if_pos hf]
    rfl
  · intro hf hb
    unfold XParser.num
    rw [if_neg (by simp [hf]), if_pos hb]
    rfl
  · intro hf hb
    unfold XParser.num
    rw [if_neg (by simp [hf]), if_neg (by simp [hb])]
    rfl
  · intro hp hle
    unfold Sema.lit_int Sema.int_from_bitsize_of
    rw [hp]
    simp only
    rw [if_pos (by omega), if_pos hle]
  · intro hp hlt hle
    unfold Sema.lit_int Sema.int_from_bitsize_of
    rw [hp]
    simp only
    rw [if_pos hle, if_neg (by omega)]
  · intro hp hlt
    unfold Sema.lit_int Sema.uint_from_bitsize_of
    rw [hp]
    simp only
    rw [if_neg (by omega)]

/-- C3 witness: the amended theorem at the literal 5 — both evaluators give
I32. -/
theorem C3_literal_kinds_witness :
    (XParser.num ("5".data)).code = XParser.TypeCode.i32 ∧
    (Sema.lit_int ("5".data)).kind = some (Sema.SKind.prim ("i32".data)) :=
  ⟨(C3_literal_kinds ("5".data) 5).2.1 (by decide) (by decide),
   (C3_literal_kinds ("5".data) 5).2.2.2.1 (by decide) (by decide)⟩

/-- C6: in a multi-typed function, a return with exactly one value pushes
missing_multi_return and one with more values than declared types pushes
overflow_return; in a single-typed (non-void) function, more than one value
pushes overflow_return.  checkExprTypes is only reached for non-void return
types (checkepxrs guards with typeIsVoidRet). -/
theorem C6_return_arity (tag : List XParser.DataT) (values : List XParser.value)
    (h2 : 2 ≤ tag.length) :
    (values.length = 1 →
      XParser.checkExprTypes true tag values = ["missing_multi_return".data]) ∧
    (tag.length < values.length →
      XParser.checkExprTypes true tag values = ["overflow_return".data]) ∧
    (1 < values.length →
      XParser.checkExprTypes false tag values = ["overflow_return".data]) := by
  unfold XParser.checkExprTypes
  refine ⟨?_, ?_, ?_⟩
  · intro h1
    simp [h1]
  · intro hgt
    have hne : values.length ≠ 1 := by omega
    simp only [Bool.not_true, Bool.false_eq_true, if_false]
    rw [if_neg (by simpa using hne), if_pos (by omega)]
  · intro hgt
    simp only [Bool.not_false, if_true]
    rw [if_pos (by omega)]

/-- C6 witness: `ret 1, 2, 3` against two declared return types overflows,
and a single-value return against the same multi-type misses. -/
theorem C6_return_arity_witness :
    XParser.checkExprTypes true XParser.demoRetTag
      [XParser.intIndexDemo] = ["missing_multi_return".data] ∧
    XParser.checkExprTypes true XParser.demoRetTag
      [XParser.intIndexDemo, XParser.intIndexDemo, XParser.intIndexDemo] =
      ["overflow_return".data] ∧
    XParser.checkExprTypes false XParser.demoRetTag
      [XParser.intIndexDemo, XParser.intIndexDemo] = ["overflow_return".data] :=
  ⟨(C6_return_arity XParser.demoRetTag [XParser.intIndexDemo] (by decide)).1 rfl,
   (C6_return_arity XParser.demoRetTag
      [XParser.intIndexDemo, XParser.intIndexDemo, XParser.intIndexDemo] (by decide)).2.1
      (by decide),
   (C6_return_arity XParser.demoRetTag
      [XParser.intIndexDemo, XParser.intIndexDemo] (by decide)).2.2 (by decide)⟩

/-- C8 (counterexample): in the parser evaluator, an identifier bound to a
constant variable evaluates to a value with constant = true AND
lvalue = true, violating the claimed invariant constant ⇒ not lvalue. -/
theorem C8_counterexample :
    ((XParser.idEval ("x".data) (some XParser.constVarX) none).1.map
      (fun v => (v.constant, v.lvalue))) = some (true, true) := by
  decide

/-- C8 (amended): in the sema evaluator, eval_var yields
Lvalue = !Constant, so a Data produced for a constant variable is never an
lvalue (and literal Data is constant and not lvalue); the legacy parser's
identifier evaluator instead marks every variable value, constants
included, as lvalue. -/
theorem C8_constant_not_lvalue (acc : Bool) (v : Sema.SVar) (d : Sema.SData)
    (h : Sema.eval_var acc v = some d) :
    d.lvalue = !d.constant ∧ (d.constant = true → d.lvalue = false) ∧
    Sema.lit_str.constant = true ∧ Sema.lit_str.lvalue = false := by
  unfold Sema.eval_var at h
  by_cases hacc : (!acc) = true
  · rw [if_pos hacc] at h
    simp at h
  · rw [if_neg hacc] at h
    rw [Option.some_inj] at h
    subst h
    refine ⟨rfl, ?_, rfl, rfl⟩
    intro hc
    have hc1 : v.constant = true := hc
    simp [hc1]

/-- C8 witness: the amended theorem at a concrete constant variable — its
Data has constant = true and lvalue = false. -/
theorem C8_constant_not_lvalue_witness :
    Sema.demoConstVarData.lvalue = !Sema.demoConstVarData.constant ∧
    (Sema.demoConstVarData.constant = true → Sema.demoConstVarData.lvalue = false) ∧
    Sema.lit_str.constant = true ∧ Sema.lit_str.lvalue = false :=
  C8_constant_not_lvalue true Sema.demoConstVar Sema.demoConstVarData rfl

namespace XLex

theorem token_quote_step (l c : Nat) (e : List (List Char)) :
    token quoteSrc ⟨0, l, c, e⟩ =
      (⟨quoteSrc, TokTy.valueTy, l, c⟩, ⟨0, l, c + 1, e ++ ["rune_empty".data]⟩) := by
  simp [quoteSrc, token, resume, resumeLoop, lexRune, lexRuneLoop, getRune,
        getEscapeSequence, escMatch, finishTok, pushError, newLine, startsWith2,
        isKeyword, lexName, lexNameLoop, lexNumeric, numericMatch, decimalMatch]

theorem tokenize_quote_none (n : Nat) :
    ∀ (l c : Nat) (e : List (List Char)) (acc : List TokenM),
      tokenizeFuel quoteSrc n ⟨0, l, c, e⟩ acc = none := by
  induction n with
  | zero => intro l c e acc; rfl
  | succ n ih =>
    intro l c e acc
    have hstep : tokenizeFuel quoteSrc (n + 1) ⟨0, l, c, e⟩ acc =
        tokenizeFuel quoteSrc n ⟨0, l, c + 1, e ++ ["rune_empty".data]⟩
          (acc ++ [⟨quoteSrc, TokTy.valueTy, l, c⟩]) := by
      simp only [tokenizeFuel, token_quote_step]
      simp [quoteSrc]
    rw [hstep]
    exact ih l (c + 1) (e ++ ["rune_empty".data]) (acc ++ [⟨quoteSrc, TokTy.valueTy, l, c⟩])

end XLex

/-- C9 (code bug): on the one-character source `'` (a rune-literal quote at
end of file), Token returns without advancing the lexer position — lexRune
scans an empty body, pushes rune_empty and leaves Position untouched — so
Tokenize's `for l.Position < len(content)` loop never terminates: no amount
of fuel makes the modelled Tokenize return. -/
theorem C9_tokenize_nontermination :
    ((XLex.token XLex.quoteSrc XLex.initSt).2.pos = XLex.initSt.pos) ∧
    (∀ n, XLex.tokenizeFuel XLex.quoteSrc n XLex.initSt [] = none) := by
  constructor
  · show (XLex.token XLex.quoteSrc ⟨0, 1, 1, []⟩).2.pos = (⟨0, 1, 1, []⟩ : XLex.LexSt).pos
    rw [XLex.token_quote_step 1 1 []]
  · intro n
    exact XLex.tokenize_quote_none n 1 1 [] []

namespace XLex

theorem escMatch_two_le (s seq : List Char) (h : escMatch s = some seq) :
    2 ≤ seq.length := by
  cases s with
  | nil => simp [escMatch] at h
  | cons c rest =>
    unfold escMatch at h
    dsimp only at h
    by_cases hc : c = '\\'
    · rw [if_pos hc] at h
      cases rest with
      | nil => simp at h
      | cons c2 rs =>
        dsimp only at h
        split_ifs at h with h1 h2 h3 h4 h5
        · obtain rfl : ['\\', c2] = seq := by simpa using h
          simp
        · cases ht : takeNoNl 8 rs with
          | none => rw [ht] at h; simp at h
          | some l =>
            rw [ht] at h
            obtain rfl : '\\' :: 'U' :: l = seq := by simpa using h
            simp
        · cases ht : takeNoNl 4 rs with
          | none => rw [ht] at h; simp at h
          | some l =>
            rw [ht] at h
            obtain rfl : '\\' :: 'u' :: l = seq := by simpa using h
            simp
        · cases ht : takeNoNl 2 rs with
          | none => rw [ht] at h; simp at h
          | some l =>
            rw [ht] at h
            obtain rfl : '\\' :: 'x' :: l = seq := by simpa using h
            simp
        · obtain rfl : '\\' :: c2 :: takeOctal 2 rs = seq := by simpa using h
          simp
    · rw [if_neg hc] at h
      simp at h

theorem lexRuneLoop_scan_nil (st : LexSt) (sb : List Char) (count : Nat) :
    (runeScan [] = none →
      (lexRuneLoop st sb count []).2.2.2 = true ∧
      ∃ extra, (lexRuneLoop st sb count []).2.1.errs
          = st.errs ++ extra ++ ["missing_rune_end".data] ∧
        ∀ k ∈ extra, k = "invalid_escape_sequence".data) ∧
    (∀ m, runeScan [] = some m →
      (lexRuneLoop st sb count []).2.2.2 = false ∧
      (lexRuneLoop st sb count []).2.2.1 = count + m ∧
      ∃ extra, (lexRuneLoop st sb count []).2.1.errs = st.errs ++ extra ∧
        ∀ k ∈ extra, k = "invalid_escape_sequence".data) := by
  constructor
  · intro hnone
    simp [runeScan] at hnone
  · intro m hm
    simp only [runeScan, Option.some.injEq] at hm
    subst hm
    refine ⟨by simp [lexRuneLoop], by simp [lexRuneLoop], [], by simp [lexRuneLoop], by simp⟩

theorem lexRuneLoop_scan_step (n : Nat)
    (ih : ∀ (body : List Char), body.length ≤ n → ∀ (st : LexSt) (sb : List Char) (count : Nat),
      (runeScan body = none →
        (lexRuneLoop st sb count body).2.2.2 = true ∧
        ∃ extra, (lexRuneLoop st sb count body).2.1.errs
            = st.errs ++ extra ++ ["missing_rune_end".data] ∧
          ∀ k ∈ extra, k = "invalid_escape_sequence".data) ∧
      (∀ m, runeScan body = some m →
        (lexRuneLoop st sb count body).2.2.2 = false ∧
        (lexRuneLoop st sb count body).2.2.1 = count + m ∧
        ∃ extra, (lexRuneLoop st sb count body).2.1.errs = st.errs ++ extra ∧
          ∀ k ∈ extra, k = "invalid_escape_sequence".data))
    (body rest2 : List Char) (st st2 : LexSt) (sb sb1 : List Char) (count : Nat)
    (hstep : lexRuneLoop st sb count body = lexRuneLoop st2 sb1 (count + 1) rest2)
    (hscan : runeScan body = (runeScan rest2).map (fun x => x + 1))
    (hlen : rest2.length ≤ n)
    (herrs : ∃ pad, st2.errs = st.errs ++ pad ∧
      ∀ k ∈ pad, k = "invalid_escape_sequence".data) :
    (runeScan body = none →
      (lexRuneLoop st sb count body).2.2.2 = true ∧
      ∃ extra, (lexRuneLoop st sb count body).2.1.errs
          = st.errs ++ extra ++ ["missing_rune_end".data] ∧
        ∀ k ∈ extra, k = "invalid_escape_sequence".data) ∧
    (∀ m, runeScan body = some m →
      (lexRuneLoop st sb count body).2.2.2 = false ∧
      (lexRuneLoop st sb count body).2.2.1 = count + m ∧
      ∃ extra, (lexRuneLoop st sb count body).2.1.errs = st.errs ++ extra ∧
        ∀ k ∈ extra, k = "invalid_escape_sequence".data) := by
  obtain ⟨pad, hpad, hpadk⟩ := herrs
  constructor
  · intro hnone
    rw [hscan] at hnone
    have hinner : runeScan rest2 = none := by
      cases hr : runeScan rest2 with
      | none => rfl
      | some m => rw [hr] at hnone; simp at hnone
    obtain ⟨hnl, extra, herr, hek⟩ := (ih rest2 hlen st2 sb1 (count + 1)).1 hinner
    rw [hstep]
    refine ⟨hnl, pad ++ extra, ?_, ?_⟩
    · rw [herr, hpad]
      simp
    · intro k hk
      rcases List.mem_append.mp hk with hk1 | hk2
      · exact hpadk k hk1
      · exact hek k hk2
  · intro m hm
    rw [hscan] at hm
    obtain ⟨m1, hm1, rfl⟩ : ∃ m1, runeScan rest2 = some m1 ∧ m = m1 + 1 := by
      cases hr : runeScan rest2 with
      | none => rw [hr] at hm; simp at hm
      | some m1 =>
        rw [hr] at hm
        simp at hm
        exact ⟨m1, rfl, by omega⟩
    obtain ⟨hnl, hcnt, extra, herr, hek⟩ := (ih rest2 hlen st2 sb1 (count + 1)).2 m1 hm1
    rw [hstep]
    refine ⟨hnl, by rw [hcnt]; omega, pad ++ extra, ?_, ?_⟩
    · rw [herr, hpad]
      simp
    · intro k hk
      rcases List.mem_append.mp hk with hk1 | hk2
      · exact hpadk k hk1
      · exact hek k hk2

end XLex

namespace XLex

theorem lexRuneLoop_scan_aux :
    ∀ (n : Nat) (body : List Char), body.length ≤ n →
      ∀ (st : LexSt) (sb : List Char) (count : Nat),
      (runeScan body = none →
        (lexRuneLoop st sb count body).2.2.2 = true ∧
        ∃ extra, (lexRuneLoop st sb count body).2.1.errs
            = st.errs ++ extra ++ ["missing_rune_end".data] ∧
          ∀ k ∈ extra, k = "invalid_escape_sequence".data) ∧
      (∀ m, runeScan body = some m →
        (lexRuneLoop st sb count body).2.2.2 = false ∧
        (lexRuneLoop st sb count body).2.2.1 = count + m ∧
        ∃ extra, (lexRuneLoop st sb count body).2.1.errs = st.errs ++ extra ∧
          ∀ k ∈ extra, k = "invalid_escape_sequence".data) := by
  intro n
  induction n with
  | zero =>
    intro body hlen st sb count
    have hb : body = [] := by
      cases body with
      | nil => rfl
      | cons c rest => simp at hlen
    subst hb
    exact lexRuneLoop_scan_nil st sb count
  | succ n ih =>
    intro body hlen st sb count
    cases body with
    | nil => exact lexRuneLoop_scan_nil st sb count
    | cons c rest =>
      by_cases hc : c = '\n'
      · subst hc
        constructor
        · intro _
          constructor
          · simp [lexRuneLoop]
          · refine ⟨[], ?_, by simp⟩
            simp [lexRuneLoop, pushError, newLine]
        · intro m hm
          rw [runeScan] at hm
          simp at hm
      · by_cases hq : c = '\''
        · subst hq
          constructor
          · intro hnone
            rw [runeScan] at hnone
            simp at hnone
          · intro m hm
            rw [runeScan] at hm
            simp at hm
            have hm0 : m = 0 := by omega
            subst hm0
            refine ⟨?_, ?_, ⟨[], ?_, by simp⟩⟩ <;> simp [lexRuneLoop, getRune]
        · by_cases hb2 : c = '\\'
          · subst hb2
            cases hesc : escMatch ('\\' :: rest) with
            | some seq =>
              have h2 : 2 ≤ seq.length := escMatch_two_le _ _ hesc
              have hne : ¬(seq = ['\'']) := by
                intro hx
                rw [hx] at h2
                simp at h2
              have hgt : seq.length > 1 := by omega
              refine lexRuneLoop_scan_step n ih ('\\' :: rest)
                (rest.drop (seq.length - 1)) st
                ⟨st.pos + seq.length, st.line, st.col + seq.length, st.errs⟩
                sb (sb ++ seq) count ?_ ?_ ?_ ?_
              · simp only [lexRuneLoop]
                simp [getRune, getEscapeSequence, hesc, hne, hgt]
              · rw [runeScan]
                simp [hesc]
              · simp only [List.length_drop]
                simp at hlen
                omega
              · exact ⟨[], by simp, by simp⟩
            | none =>
              refine lexRuneLoop_scan_step n ih ('\\' :: rest) rest st
                ⟨st.pos + 1, st.line, st.col, st.errs ++ ["invalid_escape_sequence".data]⟩
                sb sb count ?_ ?_ ?_ ?_
              · simp only [lexRuneLoop]
                simp [getRune, getEscapeSequence, hesc, pushError]
              · rw [runeScan]
                simp [hesc]
              · simp at hlen
                omega
              · exact ⟨["invalid_escape_sequence".data], by simp, by simp⟩
          · refine lexRuneLoop_scan_step n ih (c :: rest) rest st
              ⟨st.pos + 1, st.line, st.col + 1, st.errs⟩
              sb (sb ++ [c]) count ?_ ?_ ?_ ?_
            · simp only [lexRuneLoop]
              simp [getRune, hc, hq, hb2]
            · rw [runeScan]
              simp [hc, hq, hb2]
            · simp at hlen
              omega
            · exact ⟨[], by simp, by simp⟩

end XLex

/-- C7: for a rune literal at the head of the content, the lexer pushes
missing_rune_end exactly when a newline precedes the closing quote (the
spec-side code-point scan runeScan yields none), rune_empty when the literal
holds zero code points, rune_overflow when it holds two or more, and none of
the three diagnostics when it holds exactly one code point. -/
theorem C7_rune_literal_diagnostics (st : XLex.LexSt) (body : List Char)
    (h : st.errs = []) :
    (XLex.runeScan body = none →
        "missing_rune_end".data ∈ (XLex.lexRune st ('\'' :: body)).2.errs ∧
        "rune_empty".data ∉ (XLex.lexRune st ('\'' :: body)).2.errs ∧
        "rune_overflow".data ∉ (XLex.lexRune st ('\'' :: body)).2.errs) ∧
    (XLex.runeScan body = some 0 →
        "rune_empty".data ∈ (XLex.lexRune st ('\'' :: body)).2.errs ∧
        "missing_rune_end".data ∉ (XLex.lexRune st ('\'' :: body)).2.errs ∧
        "rune_overflow".data ∉ (XLex.lexRune st ('\'' :: body)).2.errs) ∧
    (XLex.runeScan body = some 1 →
        "missing_rune_end".data ∉ (XLex.lexRune st ('\'' :: body)).2.errs ∧
        "rune_empty".data ∉ (XLex.lexRune st ('\'' :: body)).2.errs ∧
        "rune_overflow".data ∉ (XLex.lexRune st ('\'' :: body)).2.errs) ∧
    (∀ m, XLex.runeScan body = some (m + 2) →
        "rune_overflow".data ∈ (XLex.lexRune st ('\'' :: body)).2.errs ∧
        "missing_rune_end".data ∉ (XLex.lexRune st ('\'' :: body)).2.errs ∧
        "rune_empty".data ∉ (XLex.lexRune st ('\'' :: body)).2.errs) := by
  have hMI : ("missing_rune_end".data : List Char) ≠ "invalid_escape_sequence".data := by decide
  have hME : ("missing_rune_end".data : List Char) ≠ "rune_empty".data := by decide
  have hMO : ("missing_rune_end".data : List Char) ≠ "rune_overflow".data := by decide
  have hEI : ("rune_empty".data : List Char) ≠ "invalid_escape_sequence".data := by decide
  have hEM : ("rune_empty".data : List Char) ≠ "missing_rune_end".data := by decide
  have hEO : ("rune_empty".data : List Char) ≠ "rune_overflow".data := by decide
  have hOI : ("rune_overflow".data : List Char) ≠ "invalid_escape_sequence".data := by decide
  have hOM : ("rune_overflow".data : List Char) ≠ "missing_rune_end".data := by decide
  have hOE : ("rune_overflow".data : List Char) ≠ "rune_empty".data := by decide
  have haux := XLex.lexRuneLoop_scan_aux body.length body le_rfl
      { st with col := st.col + 1 } ['\''] 0
  rcases ht : XLex.lexRuneLoop { st with col := st.col + 1 } ['\''] 0 body
    with ⟨sb, st1, count, nl⟩
  rw [ht] at haux
  obtain ⟨hnone, hsome⟩ := haux
  dsimp only at hnone hsome
  have hdrop : (('\'' :: body).drop 1) = body := rfl
  have hlr : XLex.lexRune st ('\'' :: body) =
      (if nl then ([], st1)
       else if count = 0 then (sb, XLex.pushError st1 ("rune_empty".data))
       else if count > 1 then (sb, XLex.pushError st1 ("rune_overflow".data))
       else (sb, st1)) := by
    simp only [XLex.lexRune, hdrop, ht]
  have hst0 : ({ st with col := st.col + 1 } : XLex.LexSt).errs = st.errs := rfl
  refine ⟨?_, ?_, ?_, ?_⟩
  · intro hn
    obtain ⟨hnl, extra, herr, hext⟩ := hnone hn
    subst hnl
    rw [hst0, h, List.nil_append] at herr
    rw [hlr, if_pos rfl]
    dsimp only
    rw [herr]
    refine ⟨by simp, ?_, ?_⟩
    · intro hmem
      rcases List.mem_append.mp hmem with hx | hx
      · exact hEI (hext _ hx)
      · rw [List.mem_singleton] at hx
        exact hEM hx
    · intro hmem
      rcases List.mem_append.mp hmem with hx | hx
      · exact hOI (hext _ hx)
      · rw [List.mem_singleton] at hx
        exact hOM hx
  · intro hs
    obtain ⟨hnl, hcount, extra, herr, hext⟩ := hsome 0 hs
    subst hnl
    have hc0 : count = 0 := by omega
    subst hc0
    rw [hst0, h, List.nil_append] at herr
    rw [hlr, if_neg (by simp), if_pos rfl]
    dsimp only [XLex.pushError]
    rw [herr]
    refine ⟨by simp, ?_, ?_⟩
    · intro hmem
      rcases List.mem_append.mp hmem with hx | hx
      · exact hMI (hext _ hx)
      · rw [List.mem_singleton] at hx
        exact hME hx
    · intro hmem
      rcases List.mem_append.mp hmem with hx | hx
      · exact hOI (hext _ hx)
      · rw [List.mem_singleton] at hx
        exact hOE hx
  · intro hs
    obtain ⟨hnl, hcount, extra, herr, hext⟩ := hsome 1 hs
    subst hnl
    have hc1 : count = 1 := by omega
    subst hc1
    rw [hst0, h, List.nil_append] at herr
    rw [hlr, if_neg (by simp), if_neg (by omega), if_neg (by omega)]
    dsimp only
    rw [herr]
    exact ⟨fun hmem => hMI (hext _ hmem), fun hmem => hEI (hext _ hmem),
      fun hmem => hOI (hext _ hmem)⟩
  · intro m hs
    obtain ⟨hnl, hcount, extra, herr, hext⟩ := hsome (m + 2) hs
    subst hnl
    have hc2 : count = m + 2 := by omega
    subst hc2
    rw [hst0, h, List.nil_append] at herr
    rw [hlr, if_neg (by simp), if_neg (by omega), if_pos (by omega)]
    dsimp only [XLex.pushError]
    rw [herr]
    refine ⟨by simp, ?_, ?_⟩
    · intro hmem
      rcases List.mem_append.mp hmem with hx | hx
      · exact hMI (hext _ hx)
      · rw [List.mem_singleton] at hx
        exact hMO hx
    · intro hmem
      rcases List.mem_append.mp hmem with hx | hx
      · exact hEI (hext _ hx)
      · rw [List.mem_singleton] at hx
        exact hEO hx

theorem C7_rune_literal_diagnostics_witness :
    XLex.initSt.errs = [] ∧
    ("missing_rune_end".data ∉ (XLex.lexRune XLex.initSt ('\'' :: "x'".data)).2.errs ∧
     "rune_empty".data ∉ (XLex.lexRune XLex.initSt ('\'' :: "x'".data)).2.errs ∧
     "rune_overflow".data ∉ (XLex.lexRune XLex.initSt ('\'' :: "x'".data)).2.errs) :=
  ⟨rfl, (C7_rune_literal_diagnostics XLex.initSt ("x'".data) rfl).2.2.1
    (by simp [XLex.runeScan])⟩

namespace XParser

theorem check_iter_preserved :
    ∀ (p : ChkSt) (l : List StmtM), (checkBlock p l).iterCount = p.iterCount := by
  refine checkBlock.induct
    (fun p l => (checkBlock p l).iterCount = p.iterCount)
    (fun p l => (checkIfChain p l).iterCount = p.iterCount)
    (fun p prof => (checkIterExpr p prof).iterCount = p.iterCount)
    (fun p en blk => (checkForeachProfile p en blk).iterCount = p.iterCount)
    (fun p b blk => (checkWhileProfile p b blk).iterCount = p.iterCount)
    ?_ ?_ ?_ ?_ ?_ ?_ ?_ ?_ ?_ ?_ ?_ ?_ ?_ ?_ ?_ ?_ ?_ ?_ ?_ ?_ ?_
  all_goals intros
  all_goals
    first
      | (simp_all [checkBlock, checkIfChain, checkIterExpr, checkWhileProfile,
            checkForeachProfile, pushChk, incIter, decIter, checkBreakStatement,
            checkContinueStatement] <;>
          try (split <;> simp_all <;> try omega)
         done)
      | (split <;> simp_all [checkBlock, checkIfChain, checkIterExpr,
            checkWhileProfile, checkForeachProfile, pushChk, incIter, decIter,
            checkBreakStatement, checkContinueStatement] <;> try omega
         done)
      | (rename_i prof ih
         cases prof <;>
           simp_all [checkIterExpr, checkWhileProfile, checkForeachProfile,
             incIter, decIter, pushChk] <;> try omega
         done)

end XParser

/-- C10: checking an iter statement preserves the iteration-nesting counter —
for every profile, checkIterExpr's increment before the profile check is
balanced by the decrement after it, and each body check leaves the counter
unchanged — and break/continue legality is decided by that counter alone:
checkBreakStatement pushes break_at_outiter exactly when iterCount is zero
(likewise checkContinueStatement with continue_at_outiter), with the counter
untouched. -/
theorem C10_iterCount_balanced :
    (∀ (p : XParser.ChkSt) (profile : XParser.ProfileM),
        (XParser.checkIterExpr p profile).iterCount = p.iterCount) ∧
    (∀ p : XParser.ChkSt,
        (XParser.checkBreakStatement p).errs =
          (if p.iterCount = 0 then p.errs ++ ["break_at_outiter".data] else p.errs) ∧
        (XParser.checkBreakStatement p).iterCount = p.iterCount ∧
        (XParser.checkContinueStatement p).errs =
          (if p.iterCount = 0 then p.errs ++ ["continue_at_outiter".data] else p.errs) ∧
        (XParser.checkContinueStatement p).iterCount = p.iterCount) := by
  constructor
  · intro p profile
    cases profile <;>
      simp [XParser.checkIterExpr, XParser.checkWhileProfile,
        XParser.checkForeachProfile, XParser.incIter, XParser.decIter,
        XParser.check_iter_preserved] <;>
      try (split <;> simp [XParser.pushChk] <;> try omega)
  · intro p
    refine ⟨?_, ?_, ?_, ?_⟩ <;>
      · simp only [XParser.checkBreakStatement, XParser.checkContinueStatement,
          XParser.pushChk]
        split <;> simp_all
